import Mathlib

/-!
# SawitDB: the append-only command log of AuditSendiri

A shallow embedding of `internal/db/sawit.go` and of the entity types of
`internal/domain`.  Go strings and byte slices are byte sequences; the log
file is its byte content; the standard-library JSON codec, `strings.ToUpper`,
the outcome of each file-system call and the random source behind
`generateID` are explicit inputs.
-/

namespace Sawit

/-! ## Bytes and strings -/

/-- One byte. -/
abbrev Byte := Fin 256

/-- A Go `string` or `[]byte`: a sequence of bytes. -/
abbrev Str := List Byte

/-- The bytes of an ASCII literal of the source. -/
def lit (s : String) : Str := s.toList.map (fun c => Fin.ofNat c.toNat)

/-- Go `strings.HasPrefix`. -/
def HasPrefix (s p : Str) : Bool := p.isPrefixOf s

/-- Go `strings.Contains`: `sub` occurs somewhere in `s`. -/
def Contains : Str → Str → Bool
  | [], sub => sub.isEmpty
  | c :: s, sub => sub.isPrefixOf (c :: s) || Contains s sub

/-- Go `strings.SplitN(s, sep, n)` for a one-byte separator and `n ≥ 0`: cut at
the first `n - 1` separators, the last part being the unsplit remainder. -/
def SplitN (s : Str) (sep : Byte) : Nat → List Str
  | 0 => []
  | 1 => [s]
  | n + 2 =>
    match s.span (fun b => b != sep) with
    | (_, []) => [s]
    | (a, _ :: rest) => a :: SplitN rest sep (n + 1)

/-- The space byte, the separator of the command language. -/
def space : Byte := 32

/-! ## Domain entities (`internal/domain`) -/

/-- A `time.Time` instant, carried by the store without inspection: nanoseconds
relative to the Unix epoch. -/
abbrev Time := Int

/-- A `float64`, carried by the store without inspection: its IEEE-754 bit
pattern. -/
structure Float64 where
  bits : Nat
deriving DecidableEq, Repr

/-- Go `domain.Transaction`. -/
structure Transaction where
  ID : Str
  TxType : Str
  Amount : Float64
  Category : Str
  Description : Str
  CreatedAt : Time
  CreatedBy : Str
  DeletedAt : Option Time
deriving DecidableEq, Repr

/-- Go `domain.AuditLog`. -/
structure AuditLog where
  ID : Str
  EntityType : Str
  EntityID : Str
  Action : Str
  Note : Str
  Details : Str
  CreatedAt : Time
  CreatedBy : Str
deriving DecidableEq, Repr

/-- Go `domain.User`. -/
structure User where
  ID : Str
  Username : Str
  PasswordHash : Str
  Role : Str
  FullName : Str
  CreatedAt : Time
  UpdatedAt : Time
deriving DecidableEq, Repr

/-- Go `domain.AppSettings`. -/
structure AppSettings where
  RTName : Str
  RWName : Str
  Kelurahan : Str
  Kecamatan : Str
  Address : Str
deriving DecidableEq, Repr

/-! ## The environment of the store -/

/-- An error value returned by a library or system call. -/
inductive Err where
  | EOF
  | ErrUnexpectedEOF
  | errno (code : Nat)
deriving DecidableEq, Repr

/-- The standard-library functions the store calls on command texts:
`json.Unmarshal` into each entity type (`none` is a decode error),
`json.Marshal` of each entity (`none` is an encode error) and
`strings.ToUpper`. -/
structure Lib where
  unmarshalTransaction : Str → Option Transaction
  unmarshalUser : Str → Option User
  unmarshalAuditLog : Str → Option AuditLog
  unmarshalSettings : Str → Option AppSettings
  unmarshalID : Str → Option Str
  marshalTransaction : Transaction → Option Str
  marshalUser : User → Option Str
  marshalAuditLog : AuditLog → Option Str
  ToUpper : Str → Str

/-- What one call of `generateID` finds: eight bytes from `crypto/rand`, or a
failed read and the clock value `time.Now().UnixNano()`. -/
inductive Draw where
  | random (b : Fin 8 → Byte)
  | clock (nanos : Int)

/-- The source of randomness: the draws of the successive `generateID` calls. -/
abbrev Entropy := Nat → Draw

/-- One lowercase hexadecimal digit. -/
def hexDigit (n : Nat) : Byte := if n < 10 then Fin.ofNat (48 + n) else Fin.ofNat (87 + n)

/-- Go `hex.EncodeToString`. -/
def hexEncode : Str → Str
  | [] => []
  | b :: bs => hexDigit (b.val / 16) :: hexDigit (b.val % 16) :: hexEncode bs

/-- Decimal digits of a natural number, most significant first. -/
def decimalNat (n : Nat) : Str :=
  if n = 0 then [48] else (Nat.digits 10 n).reverse.map (fun d => Fin.ofNat (48 + d))

/-- Go `fmt.Sprintf("%d", n)`. -/
def decimal (n : Int) : Str :=
  if n < 0 then 45 :: decimalNat n.natAbs else decimalNat n.natAbs

/-- The identifier a draw turns into. -/
def idOfDraw : Draw → Str
  | .random b => hexEncode (List.ofFn b)
  | .clock nanos => decimal nanos

/-- Go `generateID`: the identifier of the next draw, and the remaining draws. -/
def generateID (ent : Entropy) : Str × Entropy :=
  (idOfDraw (ent 0), fun n => ent (n + 1))

/-! ## The store -/

/-- Go `SawitDB`: the bytes of `data.sawit` and the derived collections. -/
structure SawitDB where
  file : Str
  Transactions : List Transaction
  AuditLogs : List AuditLog
  Users : List User
  Settings : AppSettings
deriving DecidableEq, Repr

/-- The update loop on transactions: the first entity with the id of `tx` is
replaced by `tx`, then the loop stops. -/
def replaceTransaction (tx : Transaction) : List Transaction → List Transaction
  | [] => []
  | t :: ts => if t.ID = tx.ID then tx :: ts else t :: replaceTransaction tx ts

/-- The update loop on users: the first user with the id of `user` is replaced
by `user`, then the loop stops. -/
def replaceUser (user : User) : List User → List User
  | [] => []
  | u :: us => if u.ID = user.ID then user :: us else u :: replaceUser user us

/-- The delete loop on users: the users whose id differs from `id`, in order. -/
def removeUser (id : Str) : List User → List User
  | [] => []
  | u :: us => if u.ID ≠ id then u :: removeUser id us else removeUser id us

/-- The guard `if log.ID == "" { log.ID = generateID() }` of `applyLocally` and
of `InsertAuditLog`: an entry without id gets a generated one. -/
def assignID (log : AuditLog) (ent : Entropy) : AuditLog × Entropy :=
  if log.ID = [] then ({ log with ID := (generateID ent).1 }, (generateID ent).2)
  else (log, ent)

/-- The `TANAM JSON` / `UBAH JSON` branch of `applyLocally`, after the split;
`ubah` tells that the text starts with `UBAH JSON`. -/
def applyWrite (lib : Lib) (db : SawitDB) (ubah : Bool) (tableName payload : Str)
    (ent : Entropy) : SawitDB × Entropy :=
  if tableName = lit "transactions" then
    match lib.unmarshalTransaction payload with
    | some tx =>
      if !ubah then ({ db with Transactions := db.Transactions ++ [tx] }, ent)
      else ({ db with Transactions := replaceTransaction tx db.Transactions }, ent)
    | none => (db, ent)
  else if tableName = lit "users" then
    match lib.unmarshalUser payload with
    | some user =>
      if !ubah then ({ db with Users := db.Users ++ [user] }, ent)
      else ({ db with Users := replaceUser user db.Users }, ent)
    | none => (db, ent)
  else if tableName = lit "audit_log" then
    match lib.unmarshalAuditLog payload with
    | some auditLog =>
      if !ubah then
        ({ db with AuditLogs := db.AuditLogs ++ [(assignID auditLog ent).1] },
          (assignID auditLog ent).2)
      else (db, (assignID auditLog ent).2)
    | none => (db, ent)
  else if tableName = lit "settings" then
    match lib.unmarshalSettings payload with
    | some s => ({ db with Settings := s }, ent)
    | none => (db, ent)
  else (db, ent)

/-- The `HAPUS JSON` branch of `applyLocally`, after the split. -/
def applyDelete (lib : Lib) (db : SawitDB) (tableName idRaw : Str) : SawitDB :=
  match lib.unmarshalID idRaw with
  | none => db
  | some id =>
    if tableName = lit "users" then { db with Users := removeUser id db.Users }
    else db

/-- Go `(*SawitDB).applyLocally`. -/
def applyLocally (lib : Lib) (db : SawitDB) (aql : Str) (ent : Entropy) :
    SawitDB × Entropy :=
  if HasPrefix aql (lit "TANAM JSON") || HasPrefix aql (lit "UBAH JSON") then
    let parts := SplitN aql space 4
    if parts.length < 4 then (db, ent)
    else applyWrite lib db (HasPrefix aql (lit "UBAH JSON")) (parts.getD 2 [])
      (parts.getD 3 []) ent
  else if HasPrefix aql (lit "HAPUS JSON") then
    let parts := SplitN aql space 4
    if parts.length < 4 then (db, ent)
    else (applyDelete lib db (parts.getD 2 []) (parts.getD 3 []), ent)
  else (db, ent)

/-! ## The log file -/

/-- What one `Write` call on the log file does: it writes everything, or it
fails with an error after `n` bytes went out. -/
inductive WriteResult where
  | ok
  | fail (n : Nat) (e : Err)

/-- Go `(*os.File).Write` on a file opened with `O_APPEND`: the new content and
the error. -/
def fileWrite (file b : Str) : WriteResult → Str × Option Err
  | .ok => (file ++ b, none)
  | .fail n e => (file ++ b.take n, some e)

/-- What the file system answers to the three calls of one `ExecuteAQL`. -/
structure WriteCalls where
  header : WriteResult
  payload : WriteResult
  sync : Option Err

/-- All three calls succeed. -/
def WriteCalls.allOk : WriteCalls := ⟨.ok, .ok, none⟩

/-- The first error among the three file-system calls of one `ExecuteAQL`. -/
def WriteCalls.failure (calls : WriteCalls) : Option Err :=
  match calls.header with
  | .fail _ e => some e
  | .ok =>
    match calls.payload with
    | .fail _ e => some e
    | .ok => calls.sync

/-- Go conversion `int32(n)` of a length: the low 32 bits, two's complement. -/
def int32 (n : Nat) : Int :=
  if n % 2 ^ 32 < 2 ^ 31 then ((n % 2 ^ 32 : Nat) : Int) else ((n % 2 ^ 32 : Nat) : Int) - 2 ^ 32

/-- The four bytes `binary.Write(_, binary.LittleEndian, v)` emits for an
`int32`. -/
def putInt32LE (v : Int) : Str :=
  let u := (v % 2 ^ 32).toNat
  [Fin.ofNat u, Fin.ofNat (u / 2 ^ 8), Fin.ofNat (u / 2 ^ 16), Fin.ofNat (u / 2 ^ 24)]

/-- The `int32` that `binary.Read(_, binary.LittleEndian, _)` decodes from four
bytes. -/
def getInt32LE (b0 b1 b2 b3 : Byte) : Int :=
  int32 (b0.val + 2 ^ 8 * b1.val + 2 ^ 16 * b2.val + 2 ^ 24 * b3.val)

/-- The record `ExecuteAQL` appends for a command text: header, then payload. -/
def frame (query : Str) : Str := putInt32LE (int32 query.length) ++ query

/-- What `ExecuteAQL` hands back as its first result. -/
inductive Rows where
  | nil
  | transactions (rows : List Transaction)
  | auditLogs (rows : List AuditLog)
  | users (rows : List User)
deriving DecidableEq, Repr

/-- The state after one `ExecuteAQL` and its two results. -/
structure ExecResult where
  db : SawitDB
  ent : Entropy
  rows : Rows
  err : Option Err

/-- Go `(*SawitDB).ExecuteAQL`. -/
def ExecuteAQL (lib : Lib) (db : SawitDB) (query : Str) (calls : WriteCalls)
    (ent : Entropy) : ExecResult :=
  let length := int32 query.length
  match fileWrite db.file (putInt32LE length) calls.header with
  | (f1, some e) => ⟨{ db with file := f1 }, ent, .nil, some e⟩
  | (f1, none) =>
    match fileWrite f1 query calls.payload with
    | (f2, some e) => ⟨{ db with file := f2 }, ent, .nil, some e⟩
    | (f2, none) =>
      match calls.sync with
      | some e => ⟨{ db with file := f2 }, ent, .nil, some e⟩
      | none =>
        let r := applyLocally lib { db with file := f2 } query ent
        let upper := lib.ToUpper query
        if Contains upper (lit "PANEN * DARI JSON TRANSACTIONS")
            || Contains upper (lit "PANEN * DARI TRANSACTIONS") then
          ⟨r.1, r.2, .transactions r.1.Transactions, none⟩
        else if Contains upper (lit "PANEN * DARI AUDIT_LOG") then
          ⟨r.1, r.2, .auditLogs r.1.AuditLogs, none⟩
        else if Contains upper (lit "PANEN * DARI USERS") then
          ⟨r.1, r.2, .users r.1.Users, none⟩
        else ⟨r.1, r.2, .nil, none⟩

/-! ## Replay -/

/-- What `binary.Read` of an `int32` finds at the cursor. -/
inductive HeaderRead where
  | eof
  | short
  | value (length : Int) (rest : Str)

/-- Go `binary.Read(db.file, binary.LittleEndian, &length)` on the unread bytes
`rest`: clean end of file, fewer than four bytes left, or a value. -/
def readInt32 : Str → HeaderRead
  | [] => .eof
  | b0 :: b1 :: b2 :: b3 :: rest => .value (getInt32LE b0 b1 b2 b3) rest
  | _ => .short

/-- The most bytes one `Read` call on an `os.File` transfers (`maxRW` of
`internal/poll`, one gibibyte). -/
def maxRW : Nat := 2 ^ 30

/-- Go `db.file.Read(aqlBytes)` into a zeroed buffer of `n` bytes on the unread
bytes `rest` of a regular file: an empty buffer reads nothing, end of file is
an error, otherwise the one call transfers the bytes at hand, `maxRW` of them
at most, to the start of the buffer.  The result is the buffer and the bytes
still unread. -/
def fileRead (rest : Str) (n : Nat) : Except Err (Str × Str) :=
  if n = 0 then .ok ([], rest)
  else if rest = [] then .error .EOF
  else
    .ok (rest.take (min n maxRW) ++ List.replicate (n - min (min n maxRW) rest.length) 0,
      rest.drop (min n maxRW))

/-- How a call ends: a nil error, a returned error, or a run-time panic. -/
inductive Outcome where
  | ok
  | error (e : Err)
  | panic
deriving DecidableEq, Repr

/-- The state after a replay, and how it ended. -/
structure Replayed where
  db : SawitDB
  ent : Entropy
  outcome : Outcome

/-- The loop of `Rehydrate` on the unread bytes `rest`, for at most `fuel`
records; `none` when the records outnumber the fuel. -/
def rehydrateLoop (lib : Lib) : Nat → Str → SawitDB → Entropy → Option Replayed
  | 0, _, _, _ => none
  | fuel + 1, rest, db, ent =>
    match readInt32 rest with
    | .eof => some ⟨db, ent, .ok⟩
    | .short => some ⟨db, ent, .error .ErrUnexpectedEOF⟩
    | .value length rest1 =>
      if length < 0 then some ⟨db, ent, .panic⟩
      else
        match fileRead rest1 length.toNat with
        | .error e => some ⟨db, ent, .error e⟩
        | .ok (aqlBytes, rest2) =>
          rehydrateLoop lib fuel rest2 (applyLocally lib db aqlBytes ent).1
            (applyLocally lib db aqlBytes ent).2

/-- The loop of `Rehydrate` run to its end on the unread bytes `rest`.  Every
record takes at least four bytes, so the fuel given here is never used up
(`rehydrateLoop_isSome`). -/
def replay (lib : Lib) (rest : Str) (db : SawitDB) (ent : Entropy) : Replayed :=
  match rehydrateLoop lib (rest.length + 1) rest db ent with
  | some r => r
  | none => ⟨db, ent, .panic⟩

/-- Go `(*SawitDB).Rehydrate`: the loop from the start of the file. -/
def Rehydrate (lib : Lib) (db : SawitDB) (ent : Entropy) : Replayed :=
  replay lib db.file db ent

/-- The store `NewSawitDB` builds before it replays the file. -/
def freshDB (content : Str) : SawitDB :=
  { file := content, Transactions := [], AuditLogs := [], Users := [],
    Settings := { RTName := lit "001", RWName := lit "001", Kelurahan := [],
                  Kecamatan := [], Address := [] } }

/-- Go `NewSawitDB`: `mkdir` is the error of `os.MkdirAll`, `opened` the result
of `os.OpenFile` (the content of the file it opened).  The store is `none`
when an error is returned. -/
def NewSawitDB (lib : Lib) (mkdir : Option Err) (opened : Except Err Str)
    (ent : Entropy) : Option SawitDB × Outcome :=
  match mkdir with
  | some e => (none, .error e)
  | none =>
    match opened with
    | .error e => (none, .error e)
    | .ok content =>
      match (Rehydrate lib (freshDB content) ent).outcome with
      | .ok => (some (Rehydrate lib (freshDB content) ent).db, .ok)
      | .error e => (none, .error e)
      | .panic => (none, .panic)

/-! ## Typed operations -/

/-- Go `(*SawitDB).InsertTransaction`. -/
def InsertTransaction (lib : Lib) (db : SawitDB) (tx : Transaction) (calls : WriteCalls)
    (ent : Entropy) : ExecResult :=
  ExecuteAQL lib db (lit "TANAM JSON transactions " ++ (lib.marshalTransaction tx).getD [])
    calls ent

/-- Go `(*SawitDB).UpdateTransaction`. -/
def UpdateTransaction (lib : Lib) (db : SawitDB) (tx : Transaction) (calls : WriteCalls)
    (ent : Entropy) : ExecResult :=
  ExecuteAQL lib db (lit "UBAH JSON transactions " ++ (lib.marshalTransaction tx).getD [])
    calls ent

/-- Go `(*SawitDB).InsertUser`. -/
def InsertUser (lib : Lib) (db : SawitDB) (u : User) (calls : WriteCalls)
    (ent : Entropy) : ExecResult :=
  ExecuteAQL lib db (lit "TANAM JSON users " ++ (lib.marshalUser u).getD []) calls ent

/-- The command text `InsertAuditLog` executes. -/
def auditQuery (lib : Lib) (log : AuditLog) (ent : Entropy) : Str :=
  lit "TANAM JSON audit_log " ++ (lib.marshalAuditLog (assignID log ent).1).getD []

/-- Go `(*SawitDB).InsertAuditLog`. -/
def InsertAuditLog (lib : Lib) (db : SawitDB) (log : AuditLog) (calls : WriteCalls)
    (ent : Entropy) : ExecResult :=
  ExecuteAQL lib db (auditQuery lib log ent) calls (assignID log ent).2

/-- Go `(*SawitDB).UpdateUser`. -/
def UpdateUser (lib : Lib) (db : SawitDB) (u : User) (calls : WriteCalls)
    (ent : Entropy) : ExecResult :=
  ExecuteAQL lib db (lit "UBAH JSON users " ++ (lib.marshalUser u).getD []) calls ent

/-- The command text of `DeleteUser`. -/
def deleteUserQuery (id : Str) : Str :=
  lit "HAPUS JSON users " ++ (lit "\x7b\"id\":\"" ++ id ++ lit "\"\x7d")

/-- Go `(*SawitDB).DeleteUser`. -/
def DeleteUser (lib : Lib) (db : SawitDB) (id : Str) (calls : WriteCalls)
    (ent : Entropy) : ExecResult :=
  ExecuteAQL lib db (deleteUserQuery id) calls ent

/-! ## Notions used in the statements -/

/-- The content of a log that holds the records of the given command texts. -/
def logOf : List Str → Str
  | [] => []
  | c :: cs => frame c ++ logOf cs

/-- The command texts of a list applied in order by `applyLocally`. -/
def applyAll (lib : Lib) : List Str → SawitDB → Entropy → SawitDB × Entropy
  | [], db, ent => (db, ent)
  | q :: qs, db, ent => applyAll lib qs (applyLocally lib db q ent).1 (applyLocally lib db q ent).2

/-- The commands of a list executed one after the other through `ExecuteAQL`,
every file-system call succeeding: the final store and random source. -/
def runAll (lib : Lib) : List Str → SawitDB → Entropy → SawitDB × Entropy
  | [], db, ent => (db, ent)
  | q :: qs, db, ent =>
    runAll lib qs (ExecuteAQL lib db q .allOk ent).db (ExecuteAQL lib db q .allOk ent).ent

/-- The command texts on which `applyLocally` stores an id drawn by
`generateID`: an insert into `audit_log` whose payload decodes to an entry
without id. -/
def storesGeneratedID (lib : Lib) (aql : Str) : Bool :=
  (HasPrefix aql (lit "TANAM JSON") || HasPrefix aql (lit "UBAH JSON"))
    && !HasPrefix aql (lit "UBAH JSON")
    && !decide ((SplitN aql space 4).length < 4)
    && decide ((SplitN aql space 4).getD 2 [] = lit "audit_log")
    && (match lib.unmarshalAuditLog ((SplitN aql space 4).getD 3 []) with
        | some a => decide (a.ID = [])
        | none => false)

/-- The pairs of table and verb the interpreter table lists, with a payload that
decodes: insert into `transactions`, `users`, `audit_log` or `settings`. -/
def insertListed (lib : Lib) (table payload : Str) : Bool :=
  (decide (table = lit "transactions") && (lib.unmarshalTransaction payload).isSome)
    || (decide (table = lit "users") && (lib.unmarshalUser payload).isSome)
    || (decide (table = lit "audit_log") && (lib.unmarshalAuditLog payload).isSome)
    || (decide (table = lit "settings") && (lib.unmarshalSettings payload).isSome)

/-- The command texts the interpreter table lists, read token by token: the
text has four tokens separated by spaces, the first two spell the verb
(`TANAM JSON` insert, `UBAH JSON` update, `HAPUS JSON` delete), the third is the
table, the fourth the payload; the pair of table and verb is listed (insert
into the four tables, update of `transactions`, `users` or `settings`, delete
on `users`) and the payload decodes. -/
def listedByTokens (lib : Lib) (aql : Str) : Bool :=
  match SplitN aql space 4 with
  | [verb, json, table, payload] =>
    decide (json = lit "JSON") &&
      (if verb = lit "TANAM" then insertListed lib table payload
      else if verb = lit "UBAH" then
        (decide (table = lit "transactions") && (lib.unmarshalTransaction payload).isSome)
          || (decide (table = lit "users") && (lib.unmarshalUser payload).isSome)
          || (decide (table = lit "settings") && (lib.unmarshalSettings payload).isSome)
      else if verb = lit "HAPUS" then
        decide (table = lit "users") && (lib.unmarshalID payload).isSome
      else false)
  | _ => false

/-- The command texts the interpreter table lists, the verb being read off the
first bytes of the text and not off whole tokens: the text starts with
`TANAM JSON`, `UBAH JSON` or `HAPUS JSON` (whatever follows these bytes in the
second token), it has four tokens separated by spaces, the third token is a
table listed for that keyword and the fourth, the payload, decodes. -/
def listedByKeyword (lib : Lib) (aql : Str) : Bool :=
  let parts := SplitN aql space 4
  let table := parts.getD 2 []
  let payload := parts.getD 3 []
  decide (parts.length = 4) &&
    (if HasPrefix aql (lit "TANAM JSON") then
      (decide (table = lit "transactions") && (lib.unmarshalTransaction payload).isSome)
        || (decide (table = lit "users") && (lib.unmarshalUser payload).isSome)
        || (decide (table = lit "audit_log") && (lib.unmarshalAuditLog payload).isSome)
        || (decide (table = lit "settings") && (lib.unmarshalSettings payload).isSome)
    else if HasPrefix aql (lit "UBAH JSON") then
      (decide (table = lit "transactions") && (lib.unmarshalTransaction payload).isSome)
        || (decide (table = lit "users") && (lib.unmarshalUser payload).isSome)
        || (decide (table = lit "settings") && (lib.unmarshalSettings payload).isSome)
    else if HasPrefix aql (lit "HAPUS JSON") then
      decide (table = lit "users") && (lib.unmarshalID payload).isSome
    else false)

/-! ## A small instance of the library

`sampleLib` stands in for `encoding/json` and `strings.ToUpper` on the few
ASCII payloads the concrete examples use, where it returns what the Go library
returns; every other payload is reported as a decode error. -/

/-- Printable ASCII other than the quote and the backslash: the bytes a JSON
string holds verbatim. -/
def plainByte (b : Byte) : Bool :=
  decide (32 ≤ b.val) && decide (b.val < 127) && b != 34 && b != 92

/-- The plain bytes that `json.Marshal` prints as they are: not `<`, `>` or
`&`, which it escapes. -/
def safeByte (b : Byte) : Bool := plainByte b && b != 60 && b != 62 && b != 38

/-- The text between the opening `pre` and the closing `post` of `p`, when it is
plain. -/
def between (pre post p : Str) : Option Str :=
  match pre.isPrefixOf? p with
  | none => none
  | some rest =>
    match post.isSuffixOf? rest with
    | none => none
    | some s => if s.all plainByte then some s else none

/-- The id of the payloads `{}` (no id) and `{"id":"..."}`. -/
def sampleID (p : Str) : Option Str :=
  if p = lit "\x7b\x7d" then some [] else between (lit "\x7b\"id\":\"") (lit "\"\x7d") p

/-- The zero `time.Time`, 1 January of year 1. -/
def zeroTime : Time := -62135596800000000000

/-- The zero value of `domain.Transaction`. -/
def zeroTransaction : Transaction := ⟨[], [], ⟨0⟩, [], [], zeroTime, [], none⟩

/-- The zero value of `domain.User`. -/
def zeroUser : User := ⟨[], [], [], [], [], zeroTime, zeroTime⟩

/-- The zero value of `domain.AuditLog`. -/
def zeroAuditLog : AuditLog := ⟨[], [], [], [], [], [], zeroTime, []⟩

/-- The tail of what `json.Marshal` prints for an audit entry whose fields other
than the id are zero. -/
def auditTail : Str :=
  lit ("\",\"entity_type\":\"\",\"entity_id\":\"\",\"action\":\"\",\"note\":\"\","
    ++ "\"created_at\":\"0001-01-01T00:00:00Z\",\"created_by\":\"\"\x7d")

/-- Decoding of a transaction payload: `{}`, `{"id":"..."}`, or an id with a
tombstone at the Unix epoch. -/
def sampleTransaction (p : Str) : Option Transaction :=
  match sampleID p with
  | some id => some { zeroTransaction with ID := id }
  | none =>
    match between (lit "\x7b\"id\":\"") (lit "\",\"deleted_at\":\"1970-01-01T00:00:00Z\"\x7d") p with
    | some id => some { zeroTransaction with ID := id, DeletedAt := some 0 }
    | none => none

/-- Decoding of an audit payload: `{}`, `{"id":"..."}`, or the marshalled form of
an entry whose other fields are zero. -/
def sampleAuditLog (p : Str) : Option AuditLog :=
  match sampleID p with
  | some id => some { zeroAuditLog with ID := id }
  | none =>
    match between (lit "\x7b\"id\":\"") auditTail p with
    | some id => some { zeroAuditLog with ID := id }
    | none => none

/-- Encoding of an audit entry whose fields other than the id are zero and
whose id is printed as it is. -/
def sampleMarshalAuditLog (a : AuditLog) : Option Str :=
  if a = { zeroAuditLog with ID := a.ID } ∧ a.ID.all safeByte = true then
    some (lit "\x7b\"id\":\"" ++ a.ID ++ auditTail)
  else none

/-- Upper-casing of ASCII text. -/
def asciiUpper (s : Str) : Str :=
  s.map (fun b => if 97 ≤ b.val ∧ b.val ≤ 122 then Fin.ofNat (b.val - 32) else b)

/-- The sample library. -/
def sampleLib : Lib where
  unmarshalTransaction := sampleTransaction
  unmarshalUser := fun p => (sampleID p).map (fun id => { zeroUser with ID := id })
  unmarshalAuditLog := sampleAuditLog
  unmarshalSettings := fun p => if p = lit "\x7b\x7d" then some ⟨[], [], [], [], []⟩ else none
  unmarshalID := sampleID
  marshalTransaction := fun _ => none
  marshalUser := fun _ => none
  marshalAuditLog := sampleMarshalAuditLog
  ToUpper := asciiUpper

/-- A random source whose reads all succeed with the byte `b` repeated. -/
def constEntropy (b : Byte) : Entropy := fun _ => .random (fun _ => b)

/-- The 4-byte little-endian encoding of a number: byte `i` is the `i`-th digit
in base 256. -/
def littleEndian32 (n : Nat) : Str :=
  [Fin.ofNat (n % 256), Fin.ofNat (n / 256 % 256), Fin.ofNat (n / 256 ^ 2 % 256),
    Fin.ofNat (n / 256 ^ 3 % 256)]

/-- Decoding of the two payloads of the insert-then-update scenario, amounts
`100` and `150` as `float64` bit patterns; other payloads as
`sampleTransaction`. -/
def scenarioTransaction (p : Str) : Option Transaction :=
  if p = lit "\x7b\"id\":\"a1\",\"type\":\"income\",\"amount\":100\x7d" then
    some { zeroTransaction with ID := lit "a1", TxType := lit "income",
                                Amount := ⟨0x4059000000000000⟩ }
  else if p = lit "\x7b\"id\":\"a1\",\"type\":\"income\",\"amount\":150\x7d" then
    some { zeroTransaction with ID := lit "a1", TxType := lit "income",
                                Amount := ⟨0x4062C00000000000⟩ }
  else sampleTransaction p

/-- The sample library, extended with the payloads of the scenario. -/
def scenarioLib : Lib := { sampleLib with unmarshalTransaction := scenarioTransaction }

/-- What `json.Marshal` prints before the id of an audit entry. -/
def noteHead : Str := lit "\x7b\"id\":\""

/-- What `json.Marshal` prints between the id and the note of an audit entry
whose entity type, entity id and action are empty. -/
def noteMid : Str :=
  lit "\",\"entity_type\":\"\",\"entity_id\":\"\",\"action\":\"\",\"note\":\""

/-- What `json.Marshal` prints after the note of an audit entry without details,
with the zero time and an empty author. -/
def noteTail : Str := lit "\",\"created_at\":\"0001-01-01T00:00:00Z\",\"created_by\":\"\"\x7d"

/-- Encoding of an audit entry whose fields other than the id and the note are
zero, id and note being printed as they are. -/
def noteMarshalAuditLog (a : AuditLog) : Option Str :=
  if a = { zeroAuditLog with ID := a.ID, Note := a.Note } ∧ a.ID.all safeByte = true
      ∧ a.Note.all safeByte = true then
    some (noteHead ++ (a.ID ++ (noteMid ++ (a.Note ++ noteTail))))
  else none

/-- Decoding of such an encoding: the id runs to the first quote, the note
stands between `noteMid` and `noteTail`; other payloads as `sampleAuditLog`. -/
def noteAuditLog (p : Str) : Option AuditLog :=
  match noteHead.isPrefixOf? p with
  | none => sampleAuditLog p
  | some r1 =>
    match noteMid.isPrefixOf? (r1.span plainByte).2 with
    | none => sampleAuditLog p
    | some r2 =>
      match noteTail.isSuffixOf? r2 with
      | none => sampleAuditLog p
      | some note =>
        if note.all plainByte then
          some { zeroAuditLog with ID := (r1.span plainByte).1, Note := note }
        else sampleAuditLog p

/-- The sample library, extended to audit entries that carry a note. -/
def noteLib : Lib :=
  { sampleLib with unmarshalAuditLog := noteAuditLog, marshalAuditLog := noteMarshalAuditLog }

/-- An id of `2 ^ 30 - 25` bytes `x`: the insert of a user with this id is a text
one byte longer than `maxRW`. -/
def longID : Str := List.replicate (2 ^ 30 - 25) 120

/-- A note of `2 ^ 30 - 151` bytes `x`: the insert of an audit entry with this
note, other fields zero, is a text one byte longer than `maxRW`. -/
def longNote : Str := List.replicate (2 ^ 30 - 151) 120

/-! ## Basic facts about the embedding -/

theorem int32_of_lt (n : Nat) (h : n < 2 ^ 31) : int32 n = n := by
  unfold int32
  have hmod : n % 2 ^ 32 = n := Nat.mod_eq_of_lt (by omega)
  rw [hmod, if_pos h]

theorem readInt32_putInt32LE (n : Nat) (h : n < 2 ^ 31) (rest : Str) :
    readInt32 (putInt32LE (int32 n) ++ rest) = .value n rest := by
  rw [int32_of_lt n h]
  simp only [putInt32LE, readInt32, List.cons_append, List.nil_append, getInt32LE]
  congr 1
  have e : ((n : Int) % 2 ^ 32).toNat = n := by omega
  rw [e]
  simp only [Fin.ofNat, Fin.val_mk]
  rw [← int32_of_lt n h]
  congr 1
  omega

theorem readInt32_length {rest rest1 : Str} {v : Int}
    (h : readInt32 rest = .value v rest1) : rest1.length + 4 = rest.length := by
  match rest, h with
  | b0 :: b1 :: b2 :: b3 :: r, h =>
    simp only [readInt32, HeaderRead.value.injEq] at h
    rw [← h.2]
    simp

theorem fileRead_length {rest buf rest2 : Str} {n : Nat}
    (h : fileRead rest n = .ok (buf, rest2)) : rest2.length ≤ rest.length := by
  unfold fileRead at h
  split at h
  · simp only [Except.ok.injEq, Prod.mk.injEq] at h
    rw [← h.2]
  · split at h
    · cases h
    · simp only [Except.ok.injEq, Prod.mk.injEq] at h
      rw [← h.2]
      simp

theorem fileRead_exact (q rest : Str) (hq : q.length ≤ 2 ^ 30) :
    fileRead (q ++ rest) q.length = .ok (q, rest) := by
  unfold fileRead
  have hmin : min q.length maxRW = q.length := Nat.min_eq_left hq
  cases q with
  | nil => simp
  | cons b bs =>
    rw [if_neg (by simp), if_neg (by simp), hmin]
    simp

theorem applyWrite_file (lib : Lib) (db : SawitDB) (ubah : Bool) (t p : Str) (ent : Entropy) :
    (applyWrite lib db ubah t p ent).1.file = db.file := by
  unfold applyWrite
  repeat' split
  all_goals rfl

theorem applyDelete_file (lib : Lib) (db : SawitDB) (t p : Str) :
    (applyDelete lib db t p).file = db.file := by
  unfold applyDelete
  repeat' split
  all_goals rfl

theorem applyLocally_file (lib : Lib) (db : SawitDB) (aql : Str) (ent : Entropy) :
    (applyLocally lib db aql ent).1.file = db.file := by
  dsimp only [applyLocally]
  split_ifs
  · rfl
  · exact applyWrite_file _ _ _ _ _ _
  · rfl
  · exact applyDelete_file _ _ _ _
  · rfl

theorem applyLocally_tanam (lib : Lib) (db : SawitDB) (table payload : Str) (ent : Entropy)
    (ht : table = lit "transactions" ∨ table = lit "users" ∨ table = lit "audit_log"
      ∨ table = lit "settings") :
    applyLocally lib db (lit "TANAM JSON " ++ (table ++ space :: payload)) ent =
      applyWrite lib db false table payload ent := by
  rcases ht with h | h | h | h <;> subst h <;> rfl

theorem applyLocally_ubah (lib : Lib) (db : SawitDB) (table payload : Str) (ent : Entropy)
    (ht : table = lit "transactions" ∨ table = lit "users" ∨ table = lit "audit_log"
      ∨ table = lit "settings") :
    applyLocally lib db (lit "UBAH JSON " ++ (table ++ space :: payload)) ent =
      applyWrite lib db true table payload ent := by
  rcases ht with h | h | h | h <;> subst h <;> rfl

theorem applyLocally_hapus_users (lib : Lib) (db : SawitDB) (payload : Str) (ent : Entropy) :
    applyLocally lib db (lit "HAPUS JSON users " ++ payload) ent =
      (applyDelete lib db (lit "users") payload, ent) := rfl

theorem rehydrateLoop_succ (lib : Lib) (fuel : Nat) (rest : Str) (db : SawitDB)
    (ent : Entropy) :
    rehydrateLoop lib (fuel + 1) rest db ent =
      match readInt32 rest with
      | .eof => some ⟨db, ent, .ok⟩
      | .short => some ⟨db, ent, .error .ErrUnexpectedEOF⟩
      | .value length rest1 =>
        if length < 0 then some ⟨db, ent, .panic⟩
        else
          match fileRead rest1 length.toNat with
          | .error e => some ⟨db, ent, .error e⟩
          | .ok (aqlBytes, rest2) =>
            rehydrateLoop lib fuel rest2 (applyLocally lib db aqlBytes ent).1
              (applyLocally lib db aqlBytes ent).2 := rfl

/-- The fuel of the replay loop does not matter once it exceeds the number of
unread bytes. -/
theorem rehydrateLoop_fuel (lib : Lib) :
    ∀ (f1 f2 : Nat) (rest : Str) (db : SawitDB) (ent : Entropy),
      rest.length < f1 → rest.length < f2 →
      rehydrateLoop lib f1 rest db ent = rehydrateLoop lib f2 rest db ent := by
  intro f1
  induction f1 with
  | zero => intro f2 rest db ent h1; omega
  | succ k ih =>
    intro f2 rest db ent h1 h2
    cases f2 with
    | zero => omega
    | succ m =>
      simp only [rehydrateLoop]
      cases hr : readInt32 rest with
      | eof => rfl
      | short => rfl
      | value v rest1 =>
        have hl := readInt32_length hr
        simp only []
        split
        · rfl
        · cases hf : fileRead rest1 v.toNat with
          | error e => rfl
          | ok pr =>
            obtain ⟨buf, rest2⟩ := pr
            have hl2 := fileRead_length hf
            simp only []
            exact ih m rest2 _ _ (by omega) (by omega)

/-- The replay loop ends: with more fuel than unread bytes it returns. -/
theorem rehydrateLoop_isSome (lib : Lib) :
    ∀ (fuel : Nat) (rest : Str) (db : SawitDB) (ent : Entropy),
      rest.length < fuel → (rehydrateLoop lib fuel rest db ent).isSome = true := by
  intro fuel
  induction fuel with
  | zero => intro rest db ent h; omega
  | succ k ih =>
    intro rest db ent h
    simp only [rehydrateLoop]
    cases hr : readInt32 rest with
    | eof => rfl
    | short => rfl
    | value v rest1 =>
      have hl := readInt32_length hr
      simp only []
      split
      · rfl
      · cases hf : fileRead rest1 v.toNat with
        | error e => rfl
        | ok pr =>
          obtain ⟨buf, rest2⟩ := pr
          have hl2 := fileRead_length hf
          simp only []
          exact ih rest2 _ _ (by omega)

/-- One record at the cursor: the replay applies its command text and goes on
with the bytes after it. -/
theorem replay_frame (lib : Lib) (q rest : Str) (db : SawitDB) (ent : Entropy)
    (hq : q.length ≤ 2 ^ 30) :
    replay lib (frame q ++ rest) db ent =
      replay lib rest (applyLocally lib db q ent).1 (applyLocally lib db q ent).2 := by
  unfold replay
  have hstep : rehydrateLoop lib ((frame q ++ rest).length + 1) (frame q ++ rest) db ent =
      rehydrateLoop lib (rest.length + 1) rest (applyLocally lib db q ent).1
        (applyLocally lib db q ent).2 := by
    rw [rehydrateLoop_succ]
    simp only [frame, List.append_assoc]
    rw [readInt32_putInt32LE q.length (by omega)]
    simp only [Int.toNat_ofNat, fileRead_exact q rest hq]
    rw [if_neg (by omega)]
    apply rehydrateLoop_fuel
    · simp [putInt32LE]; omega
    · omega
  rw [hstep]
  have hsome := rehydrateLoop_isSome lib (rest.length + 1) rest (applyLocally lib db q ent).1
    (applyLocally lib db q ent).2 (by omega)
  cases hr : rehydrateLoop lib (rest.length + 1) rest (applyLocally lib db q ent).1
    (applyLocally lib db q ent).2 with
  | none => rw [hr] at hsome; cases hsome
  | some r => rfl

theorem replay_nil (lib : Lib) (db : SawitDB) (ent : Entropy) :
    replay lib [] db ent = ⟨db, ent, .ok⟩ := rfl

/-- Replay of a log made of whole records: the command texts are applied in
order and the replay ends without error. -/
theorem replay_logOf (lib : Lib) :
    ∀ (cmds : List Str) (db : SawitDB) (ent : Entropy),
      (∀ c ∈ cmds, c.length ≤ 2 ^ 30) →
      replay lib (logOf cmds) db ent =
        ⟨(applyAll lib cmds db ent).1, (applyAll lib cmds db ent).2, .ok⟩ := by
  intro cmds
  induction cmds with
  | nil => intro db ent _; rfl
  | cons c cs ih =>
    intro db ent h
    simp only [logOf, applyAll]
    rw [replay_frame lib c (logOf cs) db ent (h c (List.mem_cons_self _ _))]
    exact ih _ _ (fun c' hc' => h c' (List.mem_cons_of_mem _ hc'))

/-! ## Facts about `ExecuteAQL` -/

theorem failure_eq_none {calls : WriteCalls} (h : calls.failure = none) :
    calls = .allOk := by
  obtain ⟨hd, pl, sy⟩ := calls
  cases hd <;> cases pl <;> simp_all [WriteCalls.failure, WriteCalls.allOk]

theorem failure_eq_some_iff (calls : WriteCalls) (e : Err) :
    calls.failure = some e ↔
      ((∃ n, calls.header = .fail n e) ∨ (calls.header = .ok ∧ ∃ n, calls.payload = .fail n e)
        ∨ (calls.header = .ok ∧ calls.payload = .ok ∧ calls.sync = some e)) := by
  obtain ⟨hd, pl, sy⟩ := calls
  cases hd <;> cases pl <;> simp [WriteCalls.failure]

/-- A failed `ExecuteAQL` returns the error of the failing call and no rows,
leaves the collections and the random source alone, and leaves in the file the
bytes that went out before the failure. -/
theorem ExecuteAQL_of_failure (lib : Lib) (db : SawitDB) (query : Str) (calls : WriteCalls)
    (ent : Entropy) (e : Err) (h : calls.failure = some e) :
    ∃ written, written <+: frame query ∧
      ExecuteAQL lib db query calls ent =
        ⟨{ db with file := db.file ++ written }, ent, .nil, some e⟩ := by
  obtain ⟨hd, pl, sy⟩ := calls
  cases hd with
  | fail n e1 =>
    simp only [WriteCalls.failure, Option.some.injEq] at h
    subst h
    refine ⟨(putInt32LE (int32 query.length)).take n, ?_, rfl⟩
    exact (List.take_prefix _ _).trans (List.prefix_append _ _)
  | ok =>
    cases pl with
    | fail n e1 =>
      simp only [WriteCalls.failure, Option.some.injEq] at h
      subst h
      refine ⟨putInt32LE (int32 query.length) ++ query.take n, ?_, ?_⟩
      · exact (List.prefix_append_right_inj _).mpr (List.take_prefix _ _)
      · simp [ExecuteAQL, fileWrite]
    | ok =>
      simp only [WriteCalls.failure] at h
      subst h
      refine ⟨frame query, List.prefix_refl _, ?_⟩
      simp [ExecuteAQL, fileWrite, frame]

/-- The store and the random source after a successful `ExecuteAQL`: the record
is in the file and the command text has been applied. -/
theorem ExecuteAQL_allOk (lib : Lib) (db : SawitDB) (query : Str) (ent : Entropy) :
    (ExecuteAQL lib db query .allOk ent).db =
        (applyLocally lib { db with file := db.file ++ frame query } query ent).1
      ∧ (ExecuteAQL lib db query .allOk ent).ent =
        (applyLocally lib { db with file := db.file ++ frame query } query ent).2
      ∧ (ExecuteAQL lib db query .allOk ent).err = none := by
  simp only [ExecuteAQL, WriteCalls.allOk, fileWrite, frame, List.append_assoc]
  split_ifs <;> exact ⟨rfl, rfl, rfl⟩

/-- Claim C1. Write before visible: when the header write, the payload write or
the Sync of `ExecuteAQL` fails, the call returns no rows and that error, the
transactions, users, audit entries and settings in memory are what they were,
and no id was drawn; `applyLocally` runs only when the three calls have
succeeded, on a store whose file already holds the record. -/
theorem ExecuteAQL_write_before_visible (lib : Lib) (db : SawitDB) (query : Str)
    (calls : WriteCalls) (ent : Entropy) (e : Err)
    (hfail : (∃ n, calls.header = .fail n e)
      ∨ (calls.header = .ok ∧ ∃ n, calls.payload = .fail n e)
      ∨ (calls.header = .ok ∧ calls.payload = .ok ∧ calls.sync = some e)) :
    ((ExecuteAQL lib db query calls ent).rows = .nil
      ∧ (ExecuteAQL lib db query calls ent).err = some e
      ∧ (ExecuteAQL lib db query calls ent).db.Transactions = db.Transactions
      ∧ (ExecuteAQL lib db query calls ent).db.Users = db.Users
      ∧ (ExecuteAQL lib db query calls ent).db.AuditLogs = db.AuditLogs
      ∧ (ExecuteAQL lib db query calls ent).db.Settings = db.Settings
      ∧ (ExecuteAQL lib db query calls ent).ent = ent)
    ∧ ∀ calls2 : WriteCalls, (ExecuteAQL lib db query calls2 ent).err = none →
        calls2.header = .ok ∧ calls2.payload = .ok ∧ calls2.sync = none
        ∧ (ExecuteAQL lib db query calls2 ent).db =
          (applyLocally lib { db with file := db.file ++ frame query } query ent).1 := by
  constructor
  · obtain ⟨written, -, hw⟩ := ExecuteAQL_of_failure lib db query calls ent e
      ((failure_eq_some_iff calls e).mpr hfail)
    rw [hw]
    exact ⟨rfl, rfl, rfl, rfl, rfl, rfl, rfl⟩
  · intro calls2 herr
    cases hf : calls2.failure with
    | some e2 =>
      obtain ⟨written, -, hw⟩ := ExecuteAQL_of_failure lib db query calls2 ent e2 hf
      rw [hw] at herr
      cases herr
    | none =>
      have hall := failure_eq_none hf
      subst hall
      exact ⟨rfl, rfl, rfl, (ExecuteAQL_allOk lib db query ent).1⟩

theorem ExecuteAQL_write_before_visible_witness :
    ((ExecuteAQL sampleLib (freshDB []) (lit "TANAM JSON users \x7b\"id\":\"u1\"\x7d")
        ⟨.ok, .fail 3 (.errno 28), none⟩ (constEntropy 171)).rows = .nil
      ∧ (ExecuteAQL sampleLib (freshDB []) (lit "TANAM JSON users \x7b\"id\":\"u1\"\x7d")
        ⟨.ok, .fail 3 (.errno 28), none⟩ (constEntropy 171)).db.Users = []) :=
  have h := (ExecuteAQL_write_before_visible sampleLib (freshDB [])
    (lit "TANAM JSON users \x7b\"id\":\"u1\"\x7d") ⟨.ok, .fail 3 (.errno 28), none⟩
    (constEntropy 171) (.errno 28) (Or.inr (Or.inl ⟨rfl, 3, rfl⟩))).1
  ⟨h.1, h.2.2.2.1⟩

theorem applyWrite_setFile (lib : Lib) (db : SawitDB) (f : Str) (ubah : Bool) (t p : Str)
    (ent : Entropy) :
    applyWrite lib { db with file := f } ubah t p ent =
      ({ (applyWrite lib db ubah t p ent).1 with file := f },
        (applyWrite lib db ubah t p ent).2) := by
  unfold applyWrite
  repeat' split
  all_goals rfl

theorem applyDelete_setFile (lib : Lib) (db : SawitDB) (f : Str) (t p : Str) :
    applyDelete lib { db with file := f } t p =
      { applyDelete lib db t p with file := f } := by
  unfold applyDelete
  repeat' split
  all_goals rfl

/-- The interpreter does not look at the file: it acts on the collections. -/
theorem applyLocally_setFile (lib : Lib) (db : SawitDB) (f : Str) (aql : Str)
    (ent : Entropy) :
    applyLocally lib { db with file := f } aql ent =
      ({ (applyLocally lib db aql ent).1 with file := f }, (applyLocally lib db aql ent).2) := by
  dsimp only [applyLocally]
  split_ifs
  · rfl
  · exact applyWrite_setFile _ _ _ _ _ _ _
  · rfl
  · rw [applyDelete_setFile]
  · rfl

theorem applyAll_setFile (lib : Lib) :
    ∀ (cmds : List Str) (db : SawitDB) (f : Str) (ent : Entropy),
      applyAll lib cmds { db with file := f } ent =
        ({ (applyAll lib cmds db ent).1 with file := f }, (applyAll lib cmds db ent).2) := by
  intro cmds
  induction cmds with
  | nil => intro db f ent; rfl
  | cons c cs ih =>
    intro db f ent
    simp only [applyAll]
    rw [applyLocally_setFile]
    exact ih _ _ _

/-- Successful executions append one record each and apply the command texts in
order. -/
theorem runAll_eq (lib : Lib) :
    ∀ (cmds : List Str) (db : SawitDB) (ent : Entropy),
      runAll lib cmds db ent =
        ({ (applyAll lib cmds db ent).1 with file := db.file ++ logOf cmds },
          (applyAll lib cmds db ent).2) := by
  intro cmds
  induction cmds with
  | nil =>
    intro db ent
    simp [runAll, applyAll, logOf]
  | cons c cs ih =>
    intro db ent
    simp only [runAll, applyAll, logOf]
    rw [(ExecuteAQL_allOk lib db c ent).1, (ExecuteAQL_allOk lib db c ent).2.1, ih,
      applyLocally_setFile]
    simp only [applyAll_setFile, List.append_assoc]

theorem applyWrite_entropy (lib : Lib) (db : SawitDB) (t p : Str) (ent ent2 : Entropy)
    (ubah : Bool)
    (h : (!ubah && decide (t = lit "audit_log")
        && (match lib.unmarshalAuditLog p with
            | some a => decide (a.ID = [])
            | none => false)) = false) :
    (applyWrite lib db ubah t p ent).1 = (applyWrite lib db ubah t p ent2).1 := by
  unfold applyWrite
  by_cases h1 : t = lit "transactions"
  · rw [if_pos h1, if_pos h1]
    cases lib.unmarshalTransaction p <;> cases ubah <;> rfl
  rw [if_neg h1, if_neg h1]
  by_cases h2 : t = lit "users"
  · rw [if_pos h2, if_pos h2]
    cases lib.unmarshalUser p <;> cases ubah <;> rfl
  rw [if_neg h2, if_neg h2]
  by_cases h3 : t = lit "audit_log"
  · rw [if_pos h3, if_pos h3]
    cases hu : lib.unmarshalAuditLog p with
    | none => rfl
    | some a =>
      cases ubah with
      | true => rfl
      | false =>
        have hne : a.ID ≠ [] := by
          intro h0
          simp [h3, hu, h0] at h
        simp [assignID, hne]
  rw [if_neg h3, if_neg h3]
  by_cases h4 : t = lit "settings"
  · rw [if_pos h4, if_pos h4]
    cases lib.unmarshalSettings p <;> rfl
  rw [if_neg h4, if_neg h4]

/-- A command text that stores no generated id is applied the same way whatever
the random source. -/
theorem applyLocally_entropy (lib : Lib) (db : SawitDB) (aql : Str) (ent ent2 : Entropy)
    (h : storesGeneratedID lib aql = false) :
    (applyLocally lib db aql ent).1 = (applyLocally lib db aql ent2).1 := by
  dsimp only [applyLocally]
  split_ifs with h1 h2 h3 h4
  · rfl
  · apply applyWrite_entropy
    unfold storesGeneratedID at h
    simp only [h1, h2, Bool.true_and, decide_False, Bool.not_false] at h
    cases hu : HasPrefix aql (lit "UBAH JSON") with
    | true => rfl
    | false => simpa [hu] using h
  · rfl
  · rfl
  · rfl

theorem applyAll_entropy (lib : Lib) :
    ∀ (cmds : List Str) (db : SawitDB) (ent ent2 : Entropy),
      (∀ c ∈ cmds, storesGeneratedID lib c = false) →
      (applyAll lib cmds db ent).1 = (applyAll lib cmds db ent2).1 := by
  intro cmds
  induction cmds with
  | nil => intro db ent ent2 _; rfl
  | cons c cs ih =>
    intro db ent ent2 h
    simp only [applyAll]
    rw [applyLocally_entropy lib db c ent ent2 (h c (List.mem_cons_self _ _))]
    exact ih _ _ _ (fun c' hc' => h c' (List.mem_cons_of_mem _ hc'))

theorem isPrefixOf?_append_self (a r : Str) : a.isPrefixOf? (a ++ r) = some r := by
  induction a with
  | nil => simp [List.isPrefixOf?]
  | cons x xs ih => simp [List.isPrefixOf?, ih]

theorem isSuffixOf?_append_self (xs post : Str) : post.isSuffixOf? (xs ++ post) = some xs := by
  simp [List.isSuffixOf?, List.reverse_append, isPrefixOf?_append_self]

theorem all_plainByte_of_mem {xs : Str} (h : ∀ b ∈ xs, plainByte b = true) :
    xs.all plainByte = true := by
  simpa [List.all_eq_true] using h

/-- The id of a payload `{"id":"..."}` whose content is plain, whatever its
length. -/
theorem sampleID_plain (xs : Str) (h : ∀ b ∈ xs, plainByte b = true) :
    sampleID (lit "\x7b\"id\":\"" ++ (xs ++ lit "\"\x7d")) = some xs := by
  have hne : ¬ (lit "\x7b\"id\":\"" ++ (xs ++ lit "\"\x7d") = lit "\x7b\x7d") := by
    intro h0
    injection h0 with h1 h2
    injection h2 with h3 h4
    exact absurd h3 (by decide)
  unfold sampleID
  rw [if_neg hne]
  unfold between
  rw [isPrefixOf?_append_self]
  simp only [isSuffixOf?_append_self, all_plainByte_of_mem h, if_true]

/-- A record whose text is one byte longer than `maxRW`: the one `Read` leaves
the last byte of the text unread, the replay takes it for the start of a
header and returns an error. -/
theorem replay_over_maxRW (lib : Lib) (q : Str) (db : SawitDB) (ent : Entropy)
    (h : q.length = 2 ^ 30 + 1) :
    (replay lib (frame q) db ent).outcome = .error .ErrUnexpectedEOF := by
  have hdrop : (q.drop maxRW).length = 1 := by
    rw [List.length_drop, h]; rfl
  obtain ⟨b, hb⟩ := List.length_eq_one.mp hdrop
  have hne : q ≠ [] := by
    intro h0
    rw [h0] at h
    simp at h
  have hmin : min q.length maxRW = maxRW := by
    rw [h]; rfl
  have hread : fileRead q q.length
      = .ok (q.take maxRW ++ List.replicate (q.length - min maxRW q.length) 0, [b]) := by
    unfold fileRead
    rw [if_neg (by omega), if_neg hne, hmin, hb]
  have hfuel : (frame q).length = q.length + 3 + 1 := by
    simp [frame, putInt32LE]
  unfold replay
  rw [hfuel, rehydrateLoop_succ]
  simp only [frame]
  rw [readInt32_putInt32LE q.length (by omega)]
  simp only [Int.toNat_ofNat, hread]
  rw [if_neg (by omega), rehydrateLoop_succ]
  rfl

/-- A record whose text has `2 ^ 31` bytes carries a negative length: the replay
stops in a panic when it allocates the buffer. -/
theorem replay_panic_of_length (lib : Lib) (q : Str) (db : SawitDB) (ent : Entropy)
    (h : q.length = 2 ^ 31) : (replay lib (frame q) db ent).outcome = .panic := by
  have hput : putInt32LE (int32 (2 ^ 31)) = [0, 0, 0, 128] := by decide
  have hget : getInt32LE 0 0 0 128 = -2147483648 := by decide
  unfold replay
  rw [rehydrateLoop_succ]
  simp only [frame, h, hput, List.cons_append, List.nil_append, readInt32, hget]
  rfl

theorem ExecuteAQL_allOk_err (lib : Lib) (db : SawitDB) (query : Str) (ent : Entropy) :
    (ExecuteAQL lib db query .allOk ent).err = none := (ExecuteAQL_allOk lib db query ent).2.2

theorem replay_single_panic (lib : Lib) (q : Str) (ent ent2 : Entropy) (h : q.length = 2 ^ 31) :
    (Rehydrate lib (freshDB (runAll lib [q] (freshDB []) ent).1.file) ent2).outcome = .panic := by
  rw [runAll_eq]
  simp only [logOf, List.append_nil, freshDB, List.nil_append, Rehydrate]
  exact replay_panic_of_length _ _ _ _ h

theorem NewSawitDB_of_error (lib : Lib) (content : Str) (ent : Entropy) (e : Err)
    (h : (replay lib content (freshDB content) ent).outcome = .error e) :
    NewSawitDB lib none (.ok content) ent = (none, .error e) := by
  simp only [NewSawitDB, Rehydrate]
  rw [show (freshDB content).file = content from rfl, h]

/-- The insert of a user whose id makes the text one byte longer than `maxRW`:
the user is in memory after the execution, and the store cannot be opened
again on the resulting log. -/
theorem long_insert_is_lost (xs : Str) (ent ent2 : Entropy)
    (hplain : ∀ b ∈ xs, plainByte b = true) (hlen : xs.length = 2 ^ 30 - 25) :
    (runAll sampleLib [lit "TANAM JSON users " ++ (lit "\x7b\"id\":\"" ++ (xs ++ lit "\"\x7d"))]
        (freshDB []) ent).1.Users = [{ zeroUser with ID := xs }]
    ∧ NewSawitDB sampleLib none
        (.ok (runAll sampleLib
          [lit "TANAM JSON users " ++ (lit "\x7b\"id\":\"" ++ (xs ++ lit "\"\x7d"))]
          (freshDB []) ent).1.file) ent2
      = (none, .error .ErrUnexpectedEOF) := by
  constructor
  · rw [runAll_eq]
    simp only [applyAll]
    have h := applyLocally_tanam sampleLib (freshDB []) (lit "users")
      (lit "\x7b\"id\":\"" ++ (xs ++ lit "\"\x7d")) ent (Or.inr (Or.inl rfl))
    rw [show lit "TANAM JSON users " ++ (lit "\x7b\"id\":\"" ++ (xs ++ lit "\"\x7d"))
        = lit "TANAM JSON " ++ (lit "users" ++ space :: (lit "\x7b\"id\":\"" ++ (xs ++ lit "\"\x7d")))
        from rfl, h]
    have hne : ¬ lit "users" = lit "transactions" := by decide
    simp [applyWrite, hne, sampleLib, sampleID_plain xs hplain, freshDB]
  · rw [runAll_eq]
    simp only [logOf, List.append_nil, freshDB, List.nil_append]
    apply NewSawitDB_of_error
    apply replay_over_maxRW
    have h1 : (lit "TANAM JSON users ").length = 17 := by decide
    have h2 : (lit "\x7b\"id\":\"").length = 7 := by decide
    have h3 : (lit "\"\x7d").length = 2 := by decide
    rw [List.length_append, List.length_append, List.length_append, h1, h2, h3, hlen]
    norm_num

/-- Claim C3, refuted as stated. The insert of a user whose text is one byte
longer than the `2 ^ 30` bytes one `Read` transfers is executed with success on
a fresh store: the user is in memory, and `NewSawitDB` on the resulting log
returns an error and no store.  A command text of `2 ^ 31` bytes is executed
with success and the replay of the resulting log panics on the negative length
of its header.  And after the successful insert of an audit entry without id,
the replay of the log yields an entry whose id differs from the one in the
memory of the first store. -/
theorem round_trip_fails :
    ((runAll sampleLib
        [lit "TANAM JSON users " ++ (lit "\x7b\"id\":\"" ++ (longID ++ lit "\"\x7d"))]
        (freshDB []) (constEntropy 171)).1.Users = [{ zeroUser with ID := longID }]
    ∧ NewSawitDB sampleLib none
        (.ok (runAll sampleLib
          [lit "TANAM JSON users " ++ (lit "\x7b\"id\":\"" ++ (longID ++ lit "\"\x7d"))]
          (freshDB []) (constEntropy 171)).1.file) (constEntropy 171)
      = (none, .error .ErrUnexpectedEOF))
    ∧ (Rehydrate sampleLib
        (freshDB (runAll sampleLib [List.replicate (2 ^ 31) 0] (freshDB [])
          (constEntropy 171)).1.file) (constEntropy 171)).outcome = .panic
    ∧ (ExecuteAQL sampleLib (freshDB []) (List.replicate (2 ^ 31) 0) .allOk
        (constEntropy 171)).err = none
    ∧ (runAll sampleLib [lit "TANAM JSON audit_log \x7b\x7d"] (freshDB [])
        (constEntropy 171)).1.AuditLogs = [{ zeroAuditLog with ID := lit "abababababababab" }]
    ∧ (Rehydrate sampleLib
        (freshDB (runAll sampleLib [lit "TANAM JSON audit_log \x7b\x7d"] (freshDB [])
          (constEntropy 171)).1.file) (constEntropy 18)).db.AuditLogs
      = [{ zeroAuditLog with ID := lit "1212121212121212" }] := by
  have hp : ∀ b ∈ longID, plainByte b = true :=
    fun b hb => by rw [List.eq_of_mem_replicate hb]; decide
  have hl : longID.length = 2 ^ 30 - 25 := List.length_replicate _ _
  exact ⟨long_insert_is_lost longID (constEntropy 171) (constEntropy 171) hp hl,
    replay_single_panic _ _ _ _ (List.length_replicate _ _),
    ExecuteAQL_allOk_err _ _ _ _, by decide, by decide⟩

/-- Claim C3, amended. Round trip: for every finite sequence of command texts,
each of `2 ^ 30` bytes at most and none an insert into `audit_log` whose
payload decodes to an entry without id, executed with success through
`ExecuteAQL` on a fresh store with an empty log, the replay of the resulting
log into a second fresh store ends without error, whatever its random source,
and yields the transactions, users, audit entries and settings the first store
holds in memory; `NewSawitDB` on that file returns that very store. -/
theorem round_trip_of_logged_ids (lib : Lib) (cmds : List Str) (ent ent2 : Entropy)
    (hlen : ∀ c ∈ cmds, c.length ≤ 2 ^ 30)
    (hid : ∀ c ∈ cmds, storesGeneratedID lib c = false) :
    (Rehydrate lib (freshDB (runAll lib cmds (freshDB []) ent).1.file) ent2).outcome = .ok
    ∧ (Rehydrate lib (freshDB (runAll lib cmds (freshDB []) ent).1.file) ent2).db.Transactions
      = (runAll lib cmds (freshDB []) ent).1.Transactions
    ∧ (Rehydrate lib (freshDB (runAll lib cmds (freshDB []) ent).1.file) ent2).db.Users
      = (runAll lib cmds (freshDB []) ent).1.Users
    ∧ (Rehydrate lib (freshDB (runAll lib cmds (freshDB []) ent).1.file) ent2).db.AuditLogs
      = (runAll lib cmds (freshDB []) ent).1.AuditLogs
    ∧ (Rehydrate lib (freshDB (runAll lib cmds (freshDB []) ent).1.file) ent2).db.Settings
      = (runAll lib cmds (freshDB []) ent).1.Settings
    ∧ NewSawitDB lib none (.ok (runAll lib cmds (freshDB []) ent).1.file) ent2
      = (some (runAll lib cmds (freshDB []) ent).1, .ok) := by
  have hfile : (runAll lib cmds (freshDB []) ent).1.file = logOf cmds := by
    rw [runAll_eq]; simp [freshDB]
  have hre : Rehydrate lib (freshDB (logOf cmds)) ent2 =
      ⟨(runAll lib cmds (freshDB []) ent).1, (applyAll lib cmds (freshDB (logOf cmds)) ent2).2,
        .ok⟩ := by
    unfold Rehydrate
    rw [show (freshDB (logOf cmds)).file = logOf cmds from rfl, replay_logOf lib cmds _ _ hlen]
    congr 1
    rw [runAll_eq, show freshDB (logOf cmds) = { freshDB [] with file := logOf cmds } from rfl,
      applyAll_setFile, applyAll_entropy lib cmds (freshDB []) ent2 ent hid]
    simp [freshDB]
  rw [hfile]
  refine ⟨by rw [hre], by rw [hre], by rw [hre], by rw [hre], by rw [hre], ?_⟩
  simp only [NewSawitDB, hre]

theorem round_trip_of_logged_ids_witness :
    (Rehydrate sampleLib (freshDB (runAll sampleLib
        [lit "LAHAN users", lit "TANAM JSON users \x7b\"id\":\"u1\"\x7d",
          lit "TANAM JSON audit_log \x7b\"id\":\"a1\"\x7d"] (freshDB [])
        (constEntropy 171)).1.file) (constEntropy 18)).db.AuditLogs
      = (runAll sampleLib
        [lit "LAHAN users", lit "TANAM JSON users \x7b\"id\":\"u1\"\x7d",
          lit "TANAM JSON audit_log \x7b\"id\":\"a1\"\x7d"] (freshDB [])
        (constEntropy 171)).1.AuditLogs :=
  (round_trip_of_logged_ids sampleLib
    [lit "LAHAN users", lit "TANAM JSON users \x7b\"id\":\"u1\"\x7d",
      lit "TANAM JSON audit_log \x7b\"id\":\"a1\"\x7d"] (constEntropy 171) (constEntropy 18)
    (by decide) (by decide)).2.2.2.1

/-- Claim C4, evaluated on the code. The log holds one record, the insert of an
audit entry whose payload `{}` has no id: two replays into two fresh stores end
without error and produce audit entries with different ids, each the id that
`generateID` drew during that replay. -/
theorem replay_generates_fresh_ids :
    (Rehydrate sampleLib (freshDB (frame (lit "TANAM JSON audit_log \x7b\x7d")))
        (constEntropy 171)).outcome = .ok
    ∧ (Rehydrate sampleLib (freshDB (frame (lit "TANAM JSON audit_log \x7b\x7d")))
        (constEntropy 18)).outcome = .ok
    ∧ (Rehydrate sampleLib (freshDB (frame (lit "TANAM JSON audit_log \x7b\x7d")))
        (constEntropy 171)).db.AuditLogs = [{ zeroAuditLog with ID := lit "abababababababab" }]
    ∧ (Rehydrate sampleLib (freshDB (frame (lit "TANAM JSON audit_log \x7b\x7d")))
        (constEntropy 18)).db.AuditLogs = [{ zeroAuditLog with ID := lit "1212121212121212" }]
    ∧ (Rehydrate sampleLib (freshDB (frame (lit "TANAM JSON audit_log \x7b\x7d")))
        (constEntropy 171)).db.AuditLogs
      ≠ (Rehydrate sampleLib (freshDB (frame (lit "TANAM JSON audit_log \x7b\x7d")))
        (constEntropy 18)).db.AuditLogs := by
  decide

/-! ## The interpreter on the command texts of the typed operations -/

theorem replaceTransaction_miss (tx : Transaction) :
    ∀ ts : List Transaction, (∀ t ∈ ts, t.ID ≠ tx.ID) → replaceTransaction tx ts = ts := by
  intro ts
  induction ts with
  | nil => intro _; rfl
  | cons t ts ih =>
    intro h
    simp only [replaceTransaction]
    rw [if_neg (h t (List.mem_cons_self _ _)), ih (fun s hs => h s (List.mem_cons_of_mem _ hs))]

theorem replaceUser_miss (user : User) :
    ∀ us : List User, (∀ u ∈ us, u.ID ≠ user.ID) → replaceUser user us = us := by
  intro us
  induction us with
  | nil => intro _; rfl
  | cons u us ih =>
    intro h
    simp only [replaceUser]
    rw [if_neg (h u (List.mem_cons_self _ _)), ih (fun s hs => h s (List.mem_cons_of_mem _ hs))]

theorem removeUser_eq_filter (id : Str) :
    ∀ us : List User, removeUser id us = us.filter (fun u => decide (u.ID ≠ id)) := by
  intro us
  induction us with
  | nil => rfl
  | cons u us ih =>
    simp only [removeUser, List.filter_cons, ih, decide_eq_true_eq]

/-- Claim C5. Update miss: an update command on `transactions` or on `users`
whose payload decodes to an entity with an id that no entity of the target
collection has leaves the whole store as it was, the target collection
included: nothing is inserted. -/
theorem update_miss_is_noop (lib : Lib) (db : SawitDB) (payload : Str) (ent : Entropy) :
    (∀ tx, lib.unmarshalTransaction payload = some tx →
        (∀ t ∈ db.Transactions, t.ID ≠ tx.ID) →
        (applyLocally lib db (lit "UBAH JSON transactions " ++ payload) ent).1 = db)
    ∧ (∀ user, lib.unmarshalUser payload = some user →
        (∀ u ∈ db.Users, u.ID ≠ user.ID) →
        (applyLocally lib db (lit "UBAH JSON users " ++ payload) ent).1 = db) := by
  constructor
  · intro tx htx hmiss
    have h := applyLocally_ubah lib db (lit "transactions") payload ent (Or.inl rfl)
    rw [show lit "UBAH JSON transactions " ++ payload
        = lit "UBAH JSON " ++ (lit "transactions" ++ space :: payload) from rfl, h]
    simp [applyWrite, htx, replaceTransaction_miss tx db.Transactions hmiss]
  · intro user hu hmiss
    have h := applyLocally_ubah lib db (lit "users") payload ent (Or.inr (Or.inl rfl))
    rw [show lit "UBAH JSON users " ++ payload
        = lit "UBAH JSON " ++ (lit "users" ++ space :: payload) from rfl, h]
    have hne : ¬ lit "users" = lit "transactions" := by decide
    simp [applyWrite, hne, hu, replaceUser_miss user db.Users hmiss]

theorem update_miss_is_noop_witness :
    (applyLocally sampleLib
        { freshDB [] with Transactions := [{ zeroTransaction with ID := lit "a1" }] }
        (lit "UBAH JSON transactions " ++ lit "\x7b\"id\":\"zz\"\x7d") (constEntropy 171)).1
      = { freshDB [] with Transactions := [{ zeroTransaction with ID := lit "a1" }] } :=
  (update_miss_is_noop sampleLib
    { freshDB [] with Transactions := [{ zeroTransaction with ID := lit "a1" }] }
    (lit "\x7b\"id\":\"zz\"\x7d") (constEntropy 171)).1
    { zeroTransaction with ID := lit "zz" } (by decide) (by decide)

/-- Claim C6. Delete on users: a delete command on `users` whose payload decodes
to the id `x` makes the users the previous users without those of id `x`, the
others in their order, and leaves transactions, audit entries and settings
alone; when no user has id `x` the users are unchanged; and `ExecuteAQL`, its
file-system calls succeeding, returns a nil error. -/
theorem delete_user_removes_matching (lib : Lib) (db : SawitDB) (payload x : Str)
    (ent : Entropy) (hx : lib.unmarshalID payload = some x) :
    (applyLocally lib db (lit "HAPUS JSON users " ++ payload) ent).1.Users
        = db.Users.filter (fun u => decide (u.ID ≠ x))
    ∧ (applyLocally lib db (lit "HAPUS JSON users " ++ payload) ent).1.Transactions
        = db.Transactions
    ∧ (applyLocally lib db (lit "HAPUS JSON users " ++ payload) ent).1.AuditLogs = db.AuditLogs
    ∧ (applyLocally lib db (lit "HAPUS JSON users " ++ payload) ent).1.Settings = db.Settings
    ∧ ((∀ u ∈ db.Users, u.ID ≠ x) →
        (applyLocally lib db (lit "HAPUS JSON users " ++ payload) ent).1.Users = db.Users)
    ∧ (ExecuteAQL lib db (lit "HAPUS JSON users " ++ payload) .allOk ent).err = none
    ∧ (ExecuteAQL lib db (lit "HAPUS JSON users " ++ payload) .allOk ent).db.Users
        = db.Users.filter (fun u => decide (u.ID ≠ x)) := by
  have happ : (applyLocally lib db (lit "HAPUS JSON users " ++ payload) ent).1
      = { db with Users := db.Users.filter (fun u => decide (u.ID ≠ x)) } := by
    rw [applyLocally_hapus_users]
    simp [applyDelete, hx, removeUser_eq_filter]
  refine ⟨by rw [happ], by rw [happ], by rw [happ], by rw [happ], ?_,
    ExecuteAQL_allOk_err _ _ _ _, ?_⟩
  · intro hmiss
    rw [happ]
    simp only
    rw [List.filter_eq_self]
    intro u hu
    simpa using hmiss u hu
  · rw [(ExecuteAQL_allOk lib db _ ent).1, applyLocally_setFile, happ]

theorem delete_user_removes_matching_witness :
    (DeleteUser sampleLib
        { freshDB [] with Users := [{ zeroUser with ID := lit "u1" },
          { zeroUser with ID := lit "u2" }, { zeroUser with ID := lit "u1" }] }
        (lit "u1") .allOk (constEntropy 171)).db.Users = [{ zeroUser with ID := lit "u2" }] :=
  (delete_user_removes_matching sampleLib
    { freshDB [] with Users := [{ zeroUser with ID := lit "u1" },
      { zeroUser with ID := lit "u2" }, { zeroUser with ID := lit "u1" }] }
    (lit "\x7b\"id\":\"" ++ lit "u1" ++ lit "\"\x7d") (lit "u1") (constEntropy 171)
    (by decide)).2.2.2.2.2.2

/-! ## Generated identifiers -/

theorem hexEncode_ne_nil (b : Byte) (bs : Str) : hexEncode (b :: bs) ≠ [] := by
  simp [hexEncode]

theorem decimalNat_ne_nil (n : Nat) : decimalNat n ≠ [] := by
  unfold decimalNat
  split_ifs with h
  · simp
  · simp [Nat.digits_ne_nil_iff_ne_zero, h]

theorem decimal_ne_nil (n : Int) : decimal n ≠ [] := by
  unfold decimal
  split_ifs
  · simp
  · exact decimalNat_ne_nil _

/-- An identifier made by `generateID` is never the empty string. -/
theorem generateID_ne_nil (ent : Entropy) : (generateID ent).1 ≠ [] := by
  unfold generateID idOfDraw
  cases ent 0 with
  | random b =>
    simp only [List.ofFn_succ]
    exact hexEncode_ne_nil _ _
  | clock nanos => exact decimal_ne_nil _

theorem applyLocally_audit_insert (lib : Lib) (p : Str) (b : AuditLog)
    (hu : lib.unmarshalAuditLog p = some b) (hne : b.ID ≠ []) (d : SawitDB) (e : Entropy) :
    applyLocally lib d (lit "TANAM JSON audit_log " ++ p) e
      = ({ d with AuditLogs := d.AuditLogs ++ [b] }, e) := by
  have h := applyLocally_tanam lib d (lit "audit_log") p e (Or.inr (Or.inr (Or.inl rfl)))
  rw [show lit "TANAM JSON audit_log " ++ p
      = lit "TANAM JSON " ++ (lit "audit_log" ++ space :: p) from rfl, h]
  have h1 : ¬ lit "audit_log" = lit "transactions" := by decide
  have h2 : ¬ lit "audit_log" = lit "users" := by decide
  simp [applyWrite, h1, h2, hu, assignID, hne]

/-- What `InsertAuditLog` does to an entry without id when the file-system
calls succeed and the library marshals the entry to `p` and decodes `p` to `b`,
of the generated id. -/
theorem InsertAuditLog_allOk (lib : Lib) (db : SawitDB) (log : AuditLog) (ent : Entropy)
    (p : Str) (b : AuditLog) (hid : log.ID = [])
    (hm : lib.marshalAuditLog { log with ID := (generateID ent).1 } = some p)
    (hu : lib.unmarshalAuditLog p = some b) (hb : b.ID = (generateID ent).1) :
    auditQuery lib log ent = lit "TANAM JSON audit_log " ++ p
    ∧ (InsertAuditLog lib db log .allOk ent).err = none
    ∧ (InsertAuditLog lib db log .allOk ent).db.file
        = db.file ++ frame (lit "TANAM JSON audit_log " ++ p)
    ∧ (InsertAuditLog lib db log .allOk ent).db.AuditLogs = db.AuditLogs ++ [b] := by
  have hne : b.ID ≠ [] := by rw [hb]; exact generateID_ne_nil ent
  have hq : auditQuery lib log ent = lit "TANAM JSON audit_log " ++ p := by
    simp [auditQuery, assignID, hid, hm]
  refine ⟨hq, ExecuteAQL_allOk_err _ _ _ _, ?_, ?_⟩
  · unfold InsertAuditLog
    rw [(ExecuteAQL_allOk lib db _ _).1, applyLocally_file, hq]
  · unfold InsertAuditLog
    rw [(ExecuteAQL_allOk lib db _ _).1, hq, applyLocally_audit_insert lib p b hu hne]

theorem logOf_append (cs ds : List Str) : logOf (cs ++ ds) = logOf cs ++ logOf ds := by
  induction cs with
  | nil => rfl
  | cons c cs ih => simp [logOf, ih]

theorem applyAll_append (lib : Lib) (ds : List Str) :
    ∀ (cs : List Str) (db : SawitDB) (ent : Entropy),
      applyAll lib (cs ++ ds) db ent
        = applyAll lib ds (applyAll lib cs db ent).1 (applyAll lib cs db ent).2 := by
  intro cs
  induction cs with
  | nil => intro db ent; rfl
  | cons c cs ih => intro db ent; exact ih _ _

/-- Replay, into a fresh store, of a log of whole records followed by the record
of an insert that appends the audit entry `b`: the replay ends without error
and its audit entries are those of the earlier records followed by `b`. -/
theorem Rehydrate_after_audit_insert (lib : Lib) (cmds : List Str) (q : Str) (b : AuditLog)
    (ent : Entropy) (hcmds : ∀ c ∈ cmds, c.length ≤ 2 ^ 30) (hq : q.length ≤ 2 ^ 30)
    (happ : ∀ (d : SawitDB) (e : Entropy),
      applyLocally lib d q e = ({ d with AuditLogs := d.AuditLogs ++ [b] }, e)) :
    (Rehydrate lib (freshDB (logOf cmds ++ frame q)) ent).outcome = .ok
    ∧ (Rehydrate lib (freshDB (logOf cmds ++ frame q)) ent).db.AuditLogs
      = (Rehydrate lib (freshDB (logOf cmds)) ent).db.AuditLogs ++ [b] := by
  have hlog : logOf cmds ++ frame q = logOf (cmds ++ [q]) := by
    rw [logOf_append]; simp [logOf]
  have hall : ∀ c ∈ cmds ++ [q], c.length ≤ 2 ^ 30 := by
    intro c hc
    rcases List.mem_append.mp hc with h | h
    · exact hcmds c h
    · rw [List.mem_singleton.mp h]; exact hq
  unfold Rehydrate
  rw [show (freshDB (logOf cmds ++ frame q)).file = logOf (cmds ++ [q]) from hlog,
    show (freshDB (logOf cmds)).file = logOf cmds from rfl,
    replay_logOf lib (cmds ++ [q]) _ _ hall, replay_logOf lib cmds _ _ hcmds]
  refine ⟨rfl, ?_⟩
  have hfresh : ∀ f : Str, (applyAll lib cmds (freshDB f) ent).1.AuditLogs
      = (applyAll lib cmds (freshDB []) ent).1.AuditLogs := by
    intro f
    rw [show freshDB f = { freshDB [] with file := f } from rfl, applyAll_setFile]
  simp only [applyAll_append, applyAll, happ]
  rw [hfresh (logOf cmds ++ frame q), hfresh (logOf cmds)]

theorem span_plainByte (s r : Str) (c : Byte) (hs : ∀ b ∈ s, plainByte b = true)
    (hc : plainByte c = false) : (s ++ c :: r).span plainByte = (s, c :: r) := by
  rw [List.span_eq_take_drop, List.takeWhile_append_of_pos hs, List.dropWhile_append_of_pos hs]
  simp [hc]

theorem plainByte_of_safeByte {xs : Str} (h : ∀ b ∈ xs, safeByte b = true) :
    ∀ b ∈ xs, plainByte b = true := by
  intro b hb
  have := h b hb
  simp only [safeByte, Bool.and_eq_true] at this
  exact this.1.1.1

theorem noteAuditLog_marshalled (xs : Str) (h : ∀ b ∈ xs, plainByte b = true) :
    noteAuditLog (noteHead ++ (lit "abababababababab" ++ (noteMid ++ (xs ++ noteTail))))
      = some { zeroAuditLog with ID := lit "abababababababab", Note := xs } := by
  have hmid : noteMid ++ (xs ++ noteTail) = 34 :: (noteMid.tail ++ (xs ++ noteTail)) := rfl
  have hspan : (lit "abababababababab" ++ (noteMid ++ (xs ++ noteTail))).span plainByte
      = (lit "abababababababab", noteMid ++ (xs ++ noteTail)) := by
    have hida : (lit "abababababababab").all plainByte = true := by decide
    rw [hmid]
    exact span_plainByte (lit "abababababababab") (noteMid.tail ++ (xs ++ noteTail)) 34
      (by simpa [List.all_eq_true] using hida) (by decide)
  unfold noteAuditLog
  rw [isPrefixOf?_append_self]
  simp only [hspan, isPrefixOf?_append_self, isSuffixOf?_append_self, all_plainByte_of_mem h,
    if_true]

/-- An audit entry without id whose note makes the command text one byte longer
than `maxRW`: `InsertAuditLog` succeeds and appends the entry with the generated
id, and the store cannot be opened again on the resulting log. -/
theorem long_note_is_lost (xs : Str) (ent2 : Entropy)
    (hsafe : ∀ b ∈ xs, safeByte b = true) (hlen : xs.length = 2 ^ 30 - 151) :
    (InsertAuditLog noteLib (freshDB []) { zeroAuditLog with Note := xs } .allOk
        (constEntropy 171)).err = none
    ∧ (InsertAuditLog noteLib (freshDB []) { zeroAuditLog with Note := xs } .allOk
        (constEntropy 171)).db.AuditLogs
      = [{ zeroAuditLog with ID := lit "abababababababab", Note := xs }]
    ∧ NewSawitDB noteLib none
        (.ok (InsertAuditLog noteLib (freshDB []) { zeroAuditLog with Note := xs } .allOk
          (constEntropy 171)).db.file) ent2
      = (none, .error .ErrUnexpectedEOF) := by
  have hgen : (generateID (constEntropy 171)).1 = lit "abababababababab" := by decide
  have hplain := plainByte_of_safeByte hsafe
  have hm : noteLib.marshalAuditLog
      { ({ zeroAuditLog with Note := xs } : AuditLog) with ID := (generateID (constEntropy 171)).1 }
      = some (noteHead ++ (lit "abababababababab" ++ (noteMid ++ (xs ++ noteTail)))) := by
    rw [hgen]
    show noteMarshalAuditLog _ = _
    unfold noteMarshalAuditLog
    have hida : (lit "abababababababab").all safeByte = true := by decide
    have hxs : xs.all safeByte = true := by simpa [List.all_eq_true] using hsafe
    rw [if_pos ⟨rfl, hida, hxs⟩]
  have hu : noteLib.unmarshalAuditLog
      (noteHead ++ (lit "abababababababab" ++ (noteMid ++ (xs ++ noteTail))))
      = some { zeroAuditLog with ID := lit "abababababababab", Note := xs } :=
    noteAuditLog_marshalled xs hplain
  obtain ⟨-, herr, hfile, hmem⟩ := InsertAuditLog_allOk noteLib (freshDB [])
    { zeroAuditLog with Note := xs } (constEntropy 171) _ _ rfl hm hu hgen.symm
  refine ⟨herr, hmem, ?_⟩
  rw [hfile]
  simp only [freshDB, List.nil_append]
  apply NewSawitDB_of_error
  apply replay_over_maxRW
  have h1 : (lit "TANAM JSON audit_log ").length = 21 := by decide
  have h2 : noteHead.length = 7 := by decide
  have h3 : (lit "abababababababab").length = 16 := by decide
  have h4 : noteMid.length = 54 := by decide
  have h5 : noteTail.length = 54 := by decide
  simp only [List.length_append, h1, h2, h3, h4, h5, hlen]
  norm_num

/-- Claim C7, refuted as stated. An audit entry without id carries a note that
makes the command text one byte longer than the `2 ^ 30` bytes one `Read`
transfers; the file-system calls succeed.  `InsertAuditLog` returns no error
and the entry, with the generated id, is appended in memory; but the replay of
the resulting log does not reproduce it: `NewSawitDB` returns an error and no
store. -/
theorem long_audit_entry_is_not_replayed :
    (InsertAuditLog noteLib (freshDB []) { zeroAuditLog with Note := longNote } .allOk
        (constEntropy 171)).err = none
    ∧ (InsertAuditLog noteLib (freshDB []) { zeroAuditLog with Note := longNote } .allOk
        (constEntropy 171)).db.AuditLogs
      = [{ zeroAuditLog with ID := lit "abababababababab", Note := longNote }]
    ∧ NewSawitDB noteLib none
        (.ok (InsertAuditLog noteLib (freshDB []) { zeroAuditLog with Note := longNote } .allOk
          (constEntropy 171)).db.file) (constEntropy 18)
      = (none, .error .ErrUnexpectedEOF) :=
  long_note_is_lost longNote (constEntropy 18)
    (fun b hb => by rw [List.eq_of_mem_replicate hb]; decide) (List.length_replicate _ _)

/-- Claim C7, amended. Audit id assignment: an audit entry without id is passed
to `InsertAuditLog` and the file-system calls succeed; the library marshals the
entry and decodes the marshalled text back to an entry with the same id.  Then
the id is generated and not empty, the text written to the log is
`TANAM JSON audit_log` followed by the marshalled entry that carries this id,
and the entry appended to the audit entries in memory has this id.  When
moreover that text has `2 ^ 30` bytes at most and the log before the call is
made of whole records of `2 ^ 30` bytes at most each, the replay of the
resulting log into a fresh store ends without error, whatever its random
source, and its audit entries are those the earlier log replays to, followed
by that same entry with the identical id. -/
theorem audit_id_assignment (lib : Lib) (db : SawitDB) (log : AuditLog) (calls : WriteCalls)
    (ent : Entropy) (p : Str) (b : AuditLog)
    (hid : log.ID = [])
    (hcalls : calls.failure = none)
    (hm : lib.marshalAuditLog { log with ID := (generateID ent).1 } = some p)
    (hu : lib.unmarshalAuditLog p = some b)
    (hb : b.ID = (generateID ent).1) :
    b.ID ≠ []
    ∧ auditQuery lib log ent = lit "TANAM JSON audit_log " ++ p
    ∧ (InsertAuditLog lib db log calls ent).err = none
    ∧ (InsertAuditLog lib db log calls ent).db.file
        = db.file ++ frame (lit "TANAM JSON audit_log " ++ p)
    ∧ (InsertAuditLog lib db log calls ent).db.AuditLogs = db.AuditLogs ++ [b]
    ∧ (∀ (cmds : List Str) (ent2 : Entropy),
        (lit "TANAM JSON audit_log " ++ p).length ≤ 2 ^ 30 →
        db.file = logOf cmds → (∀ c ∈ cmds, c.length ≤ 2 ^ 30) →
        (Rehydrate lib (freshDB (InsertAuditLog lib db log calls ent).db.file) ent2).outcome = .ok
        ∧ (Rehydrate lib (freshDB (InsertAuditLog lib db log calls ent).db.file)
            ent2).db.AuditLogs
          = (Rehydrate lib (freshDB db.file) ent2).db.AuditLogs ++ [b]) := by
  have hne : b.ID ≠ [] := by rw [hb]; exact generateID_ne_nil ent
  have hall := failure_eq_none hcalls
  subst hall
  obtain ⟨hq, herr, hfile, hmem⟩ := InsertAuditLog_allOk lib db log ent p b hid hm hu hb
  refine ⟨hne, hq, herr, hfile, hmem, ?_⟩
  intro cmds ent2 hlen hlog hcmds
  rw [hfile, hlog]
  exact Rehydrate_after_audit_insert lib cmds _ b ent2 hcmds hlen
    (applyLocally_audit_insert lib p b hu hne)

set_option maxRecDepth 4000 in
theorem audit_id_assignment_witness :
    (Rehydrate sampleLib
        (freshDB (InsertAuditLog sampleLib (freshDB []) zeroAuditLog .allOk
          (constEntropy 171)).db.file) (constEntropy 18)).db.AuditLogs
      = (Rehydrate sampleLib (freshDB (freshDB []).file) (constEntropy 18)).db.AuditLogs
        ++ [{ zeroAuditLog with ID := lit "abababababababab" }] :=
  ((audit_id_assignment sampleLib (freshDB []) zeroAuditLog .allOk (constEntropy 171)
    (lit "\x7b\"id\":\"abababababababab" ++ auditTail)
    { zeroAuditLog with ID := lit "abababababababab" }
    (by decide) (by decide) (by decide) (by decide) (by decide)).2.2.2.2.2
    [] (constEntropy 18) (by decide) rfl (by decide)).2

/-! ## Read commands -/

/-- A text that starts with none of the three mutation keywords is applied as
a no-op. -/
theorem applyLocally_of_no_keyword (lib : Lib) (db : SawitDB) (aql : Str) (ent : Entropy)
    (h1 : HasPrefix aql (lit "TANAM JSON") = false)
    (h2 : HasPrefix aql (lit "UBAH JSON") = false)
    (h3 : HasPrefix aql (lit "HAPUS JSON") = false) :
    applyLocally lib db aql ent = (db, ent) := by
  simp [applyLocally, h1, h2, h3]

/-- Claim C8, refuted as stated. The read command `PANEN * DARI USERS` is
executed with success on a fresh store with an empty log: the call returns the
users and the log now holds the record of the command.  And an insert into
`users` whose id contains a read pattern is a read command as well: it returns
the users and it has changed them. -/
theorem read_command_is_persisted :
    (ExecuteAQL sampleLib (freshDB []) (lit "PANEN * DARI USERS") .allOk
        (constEntropy 171)).rows = .users []
    ∧ (ExecuteAQL sampleLib (freshDB []) (lit "PANEN * DARI USERS") .allOk
        (constEntropy 171)).db.file = frame (lit "PANEN * DARI USERS")
    ∧ (ExecuteAQL sampleLib (freshDB []) (lit "PANEN * DARI USERS") .allOk
        (constEntropy 171)).db.file ≠ (freshDB []).file
    ∧ Contains (sampleLib.ToUpper (lit "TANAM JSON users \x7b\"id\":\"panen * dari users\"\x7d"))
        (lit "PANEN * DARI USERS") = true
    ∧ (ExecuteAQL sampleLib (freshDB [])
        (lit "TANAM JSON users \x7b\"id\":\"panen * dari users\"\x7d") .allOk
        (constEntropy 171)).rows = .users [{ zeroUser with ID := lit "panen * dari users" }]
    ∧ (ExecuteAQL sampleLib (freshDB [])
        (lit "TANAM JSON users \x7b\"id\":\"panen * dari users\"\x7d") .allOk
        (constEntropy 171)).db.Users ≠ (freshDB []).Users := by
  decide

/-- Claim C8, amended. Read commands are persisted like every other command:
for a text in which `ExecuteAQL` recognises a read command, executed with the
file-system calls succeeding, the call returns a collection and a nil error,
and the log after the call is the log before it followed by the record of the
text; the collections in memory are unchanged when the text starts with none
of `TANAM JSON`, `UBAH JSON` and `HAPUS JSON`. -/
theorem read_command_is_logged (lib : Lib) (db : SawitDB) (query : Str) (ent : Entropy)
    (hread : Contains (lib.ToUpper query) (lit "PANEN * DARI JSON TRANSACTIONS") = true
      ∨ Contains (lib.ToUpper query) (lit "PANEN * DARI TRANSACTIONS") = true
      ∨ Contains (lib.ToUpper query) (lit "PANEN * DARI AUDIT_LOG") = true
      ∨ Contains (lib.ToUpper query) (lit "PANEN * DARI USERS") = true) :
    (ExecuteAQL lib db query .allOk ent).rows ≠ .nil
    ∧ (ExecuteAQL lib db query .allOk ent).err = none
    ∧ (ExecuteAQL lib db query .allOk ent).db.file = db.file ++ frame query
    ∧ (HasPrefix query (lit "TANAM JSON") = false → HasPrefix query (lit "UBAH JSON") = false →
        HasPrefix query (lit "HAPUS JSON") = false →
        (ExecuteAQL lib db query .allOk ent).db.Transactions = db.Transactions
        ∧ (ExecuteAQL lib db query .allOk ent).db.Users = db.Users
        ∧ (ExecuteAQL lib db query .allOk ent).db.AuditLogs = db.AuditLogs
        ∧ (ExecuteAQL lib db query .allOk ent).db.Settings = db.Settings) := by
  refine ⟨?_, ExecuteAQL_allOk_err _ _ _ _, ?_, ?_⟩
  · simp only [ExecuteAQL, WriteCalls.allOk, fileWrite]
    split_ifs with h1 h2 h3
    · simp
    · simp
    · simp
    · exfalso
      rcases hread with h | h | h | h <;> simp_all
  · rw [(ExecuteAQL_allOk lib db query ent).1, applyLocally_file]
  · intro h1 h2 h3
    rw [(ExecuteAQL_allOk lib db query ent).1, applyLocally_of_no_keyword lib _ query ent h1 h2 h3]
    exact ⟨rfl, rfl, rfl, rfl⟩

theorem read_command_is_logged_witness :
    (ExecuteAQL sampleLib (freshDB []) (lit "panen * dari audit_log") .allOk
        (constEntropy 171)).db.file = (freshDB []).file ++ frame (lit "panen * dari audit_log") :=
  (read_command_is_logged sampleLib (freshDB []) (lit "panen * dari audit_log")
    (constEntropy 171) (Or.inr (Or.inr (Or.inl (by decide))))).2.2.1

/-! ## Transactions are never removed -/

theorem replaceTransaction_ids (tx : Transaction) :
    ∀ ts : List Transaction,
      (replaceTransaction tx ts).map (fun t => t.ID) = ts.map (fun t => t.ID) := by
  intro ts
  induction ts with
  | nil => rfl
  | cons t ts ih =>
    simp only [replaceTransaction]
    split_ifs with h
    · simp [h]
    · simp [ih]

theorem replaceTransaction_hit (tx t : Transaction) (post : List Transaction) :
    ∀ pre : List Transaction, (∀ s ∈ pre, s.ID ≠ tx.ID) → t.ID = tx.ID →
      replaceTransaction tx (pre ++ t :: post) = pre ++ tx :: post := by
  intro pre
  induction pre with
  | nil =>
    intro _ ht
    simp [replaceTransaction, ht]
  | cons s pre ih =>
    intro h ht
    have hs := h s (List.mem_cons_self _ _)
    have hrest := ih (fun r hr => h r (List.mem_cons_of_mem _ hr)) ht
    simp [replaceTransaction, hs, hrest]

/-- What the write branch does to the transactions: nothing, an append of one
entity, or the replacement of the first entity with the id of the payload. -/
theorem applyWrite_transactions (lib : Lib) (db : SawitDB) (ubah : Bool) (t p : Str)
    (ent : Entropy) :
    (applyWrite lib db ubah t p ent).1.Transactions = db.Transactions
    ∨ (∃ tx, (applyWrite lib db ubah t p ent).1.Transactions = db.Transactions ++ [tx])
    ∨ (∃ tx, (applyWrite lib db ubah t p ent).1.Transactions
        = replaceTransaction tx db.Transactions) := by
  unfold applyWrite
  by_cases h1 : t = lit "transactions"
  · rw [if_pos h1]
    cases lib.unmarshalTransaction p with
    | none => exact Or.inl rfl
    | some tx =>
      cases ubah with
      | false => exact Or.inr (Or.inl ⟨tx, rfl⟩)
      | true => exact Or.inr (Or.inr ⟨tx, rfl⟩)
  rw [if_neg h1]
  by_cases h2 : t = lit "users"
  · rw [if_pos h2]
    cases lib.unmarshalUser p <;> cases ubah <;> exact Or.inl rfl
  rw [if_neg h2]
  by_cases h3 : t = lit "audit_log"
  · rw [if_pos h3]
    cases lib.unmarshalAuditLog p <;> cases ubah <;> exact Or.inl rfl
  rw [if_neg h3]
  by_cases h4 : t = lit "settings"
  · rw [if_pos h4]
    cases lib.unmarshalSettings p <;> exact Or.inl rfl
  rw [if_neg h4]
  exact Or.inl rfl

theorem applyDelete_transactions (lib : Lib) (db : SawitDB) (t p : Str) :
    (applyDelete lib db t p).Transactions = db.Transactions := by
  unfold applyDelete
  repeat' split
  all_goals rfl

theorem applyLocally_transactions (lib : Lib) (db : SawitDB) (aql : Str) (ent : Entropy) :
    (applyLocally lib db aql ent).1.Transactions = db.Transactions
    ∨ (∃ tx, (applyLocally lib db aql ent).1.Transactions = db.Transactions ++ [tx])
    ∨ (∃ tx, (applyLocally lib db aql ent).1.Transactions
        = replaceTransaction tx db.Transactions) := by
  dsimp only [applyLocally]
  split_ifs
  · exact Or.inl rfl
  · exact applyWrite_transactions _ _ _ _ _ _
  · exact Or.inl rfl
  · exact Or.inl (applyDelete_transactions _ _ _ _)
  · exact Or.inl rfl

theorem hasPrefix_keywords (aql : Str) (h : HasPrefix aql (lit "HAPUS JSON") = true) :
    HasPrefix aql (lit "TANAM JSON") = false ∧ HasPrefix aql (lit "UBAH JSON") = false := by
  match aql, h with
  | b :: rest, h =>
    have hb : b = 72 := by
      simp only [HasPrefix, lit, String.toList, List.map, List.isPrefixOf,
        Bool.and_eq_true, beq_iff_eq] at h
      exact h.1.symm
    subst hb
    exact ⟨rfl, rfl⟩

/-- Claim C9. Transactions are never physically removed: whatever the command
text, the ids of the transactions after `applyLocally` are the ids before, in
the same order, or the transactions are those before with one entity appended
at the end; an update whose payload carries a tombstone puts the decoded
entity, tombstone set, at the position of the first entity with its id, the
others staying in place; and a text that starts with `HAPUS JSON` leaves the
transactions as they were. -/
theorem transactions_never_removed (lib : Lib) (db : SawitDB) (aql : Str) (ent : Entropy) :
    ((applyLocally lib db aql ent).1.Transactions.map (fun t => t.ID)
          = db.Transactions.map (fun t => t.ID)
        ∨ ∃ tx, (applyLocally lib db aql ent).1.Transactions = db.Transactions ++ [tx])
    ∧ (∀ (payload : Str) (tx t : Transaction) (d : Time) (pre post : List Transaction),
        lib.unmarshalTransaction payload = some tx → tx.DeletedAt = some d →
        db.Transactions = pre ++ t :: post → t.ID = tx.ID → (∀ s ∈ pre, s.ID ≠ tx.ID) →
        (applyLocally lib db (lit "UBAH JSON transactions " ++ payload) ent).1.Transactions
            = pre ++ tx :: post
          ∧ ((applyLocally lib db (lit "UBAH JSON transactions " ++ payload)
              ent).1.Transactions.get? pre.length).map (fun s => s.DeletedAt) = some (some d))
    ∧ (HasPrefix aql (lit "HAPUS JSON") = true →
        (applyLocally lib db aql ent).1.Transactions = db.Transactions) := by
  refine ⟨?_, ?_, ?_⟩
  · rcases applyLocally_transactions lib db aql ent with h | ⟨tx, h⟩ | ⟨tx, h⟩
    · exact Or.inl (by rw [h])
    · exact Or.inr ⟨tx, h⟩
    · exact Or.inl (by rw [h, replaceTransaction_ids])
  · intro payload tx t d pre post htx hd hdb ht hpre
    have h := applyLocally_ubah lib db (lit "transactions") payload ent (Or.inl rfl)
    have happ : (applyLocally lib db (lit "UBAH JSON transactions " ++ payload)
        ent).1.Transactions = pre ++ tx :: post := by
      rw [show lit "UBAH JSON transactions " ++ payload
          = lit "UBAH JSON " ++ (lit "transactions" ++ space :: payload) from rfl, h]
      simp only [applyWrite, htx, if_true, Bool.not_true]
      rw [hdb]
      exact replaceTransaction_hit tx t post pre hpre ht
    refine ⟨happ, ?_⟩
    rw [happ]
    simp [hd, List.getElem_append_right]
  · intro hh
    obtain ⟨h1, h2⟩ := hasPrefix_keywords aql hh
    simp only [applyLocally, h1, h2, hh, Bool.or_self, Bool.false_eq_true, if_false, if_true]
    split_ifs
    · rfl
    · exact applyDelete_transactions _ _ _ _

theorem transactions_never_removed_witness :
    (applyLocally sampleLib
        { freshDB [] with Transactions := [{ zeroTransaction with ID := lit "a0" },
          { zeroTransaction with ID := lit "a1" }, { zeroTransaction with ID := lit "a2" }] }
        (lit "UBAH JSON transactions "
          ++ lit "\x7b\"id\":\"a1\",\"deleted_at\":\"1970-01-01T00:00:00Z\"\x7d")
        (constEntropy 171)).1.Transactions
      = [{ zeroTransaction with ID := lit "a0" }]
        ++ { zeroTransaction with ID := lit "a1", DeletedAt := some 0 }
          :: [{ zeroTransaction with ID := lit "a2" }]
    ∧ (applyLocally sampleLib
        { freshDB [] with Transactions := [{ zeroTransaction with ID := lit "a0" }] }
        (lit "HAPUS JSON transactions \x7b\"id\":\"a0\"\x7d") (constEntropy 171)).1.Transactions
      = [{ zeroTransaction with ID := lit "a0" }] :=
  ⟨((transactions_never_removed sampleLib
      { freshDB [] with Transactions := [{ zeroTransaction with ID := lit "a0" },
        { zeroTransaction with ID := lit "a1" }, { zeroTransaction with ID := lit "a2" }] }
      [] (constEntropy 171)).2.1
      (lit "\x7b\"id\":\"a1\",\"deleted_at\":\"1970-01-01T00:00:00Z\"\x7d")
      { zeroTransaction with ID := lit "a1", DeletedAt := some 0 }
      { zeroTransaction with ID := lit "a1" } 0
      [{ zeroTransaction with ID := lit "a0" }] [{ zeroTransaction with ID := lit "a2" }]
      (by decide) rfl rfl rfl (by decide)).1,
   (transactions_never_removed sampleLib
      { freshDB [] with Transactions := [{ zeroTransaction with ID := lit "a0" }] }
      (lit "HAPUS JSON transactions \x7b\"id\":\"a0\"\x7d") (constEntropy 171)).2.2 (by decide)⟩

/-! ## Silent no-ops -/

theorem SplitN_length_le (sep : Byte) : ∀ (n : Nat) (s : Str), (SplitN s sep n).length ≤ n := by
  intro n
  induction n with
  | zero => intro s; simp [SplitN]
  | succ k ih =>
    intro s
    cases k with
    | zero => simp [SplitN]
    | succ m =>
      simp only [SplitN]
      split
      · simp
      · simp only [List.length_cons]
        have := ih ‹Str›
        omega

theorem hasPrefix_tanam_ubah (aql : Str) (h : HasPrefix aql (lit "TANAM JSON") = true) :
    HasPrefix aql (lit "UBAH JSON") = false := by
  match aql, h with
  | b :: rest, h =>
    have hb : b = 84 := by
      simp only [HasPrefix, lit, String.toList, List.map, List.isPrefixOf,
        Bool.and_eq_true, beq_iff_eq] at h
      exact h.1.symm
    subst hb
    rfl

/-- The write branch changes nothing when the table is none of the four, when
the payload does not decode, and on an update of `audit_log`. -/
theorem applyWrite_noop (lib : Lib) (db : SawitDB) (ubah : Bool) (t p : Str) (ent : Entropy)
    (h : ((decide (t = lit "transactions") && (lib.unmarshalTransaction p).isSome)
        || (decide (t = lit "users") && (lib.unmarshalUser p).isSome)
        || (!ubah && decide (t = lit "audit_log") && (lib.unmarshalAuditLog p).isSome)
        || (decide (t = lit "settings") && (lib.unmarshalSettings p).isSome)) = false) :
    (applyWrite lib db ubah t p ent).1 = db := by
  unfold applyWrite
  by_cases h1 : t = lit "transactions"
  · rw [if_pos h1]
    cases hd : lib.unmarshalTransaction p with
    | none => rfl
    | some tx => simp [h1, hd] at h
  rw [if_neg h1]
  by_cases h2 : t = lit "users"
  · rw [if_pos h2]
    cases hd : lib.unmarshalUser p with
    | none => rfl
    | some u => simp [h2, hd] at h
  rw [if_neg h2]
  by_cases h3 : t = lit "audit_log"
  · rw [if_pos h3]
    cases hd : lib.unmarshalAuditLog p with
    | none => rfl
    | some a =>
      cases ubah with
      | true => rfl
      | false => simp [h3, hd] at h
  rw [if_neg h3]
  by_cases h4 : t = lit "settings"
  · rw [if_pos h4]
    cases hd : lib.unmarshalSettings p with
    | none => rfl
    | some u => simp [h4, hd] at h
  rw [if_neg h4]

theorem applyDelete_noop (lib : Lib) (db : SawitDB) (t p : Str)
    (h : (decide (t = lit "users") && (lib.unmarshalID p).isSome) = false) :
    applyDelete lib db t p = db := by
  unfold applyDelete
  cases hu : lib.unmarshalID p with
  | none => rfl
  | some id =>
    have ht : ¬ t = lit "users" := by
      intro h0
      simp [h0, hu] at h
    simp [ht]

theorem span_split (p : Byte → Bool) :
    ∀ (s a r : Str) (x : Byte), s.span p = (a, x :: r) → s = a ++ x :: r ∧ p x = false := by
  intro s
  induction s with
  | nil =>
    intro a r x h
    simp [List.span_eq_take_drop] at h
  | cons y ys ih =>
    intro a r x h
    rw [List.span_eq_take_drop] at h
    by_cases hy : p y = true
    · simp only [List.takeWhile_cons, List.dropWhile_cons, hy, if_true, Prod.mk.injEq] at h
      obtain ⟨h1, h2⟩ := h
      have h3 := ih (ys.takeWhile p) r x (by rw [List.span_eq_take_drop, h2])
      rw [← h1]
      exact ⟨by rw [List.cons_append, ← h3.1], h3.2⟩
    · simp only [List.takeWhile_cons, List.dropWhile_cons, hy, Bool.false_eq_true, if_false,
        Prod.mk.injEq, List.cons.injEq] at h
      obtain ⟨h1, h2, h3⟩ := h
      subst h1 h2 h3
      exact ⟨rfl, by simpa using hy⟩

/-- A split with at least two parts: the text is the first part, a separator,
and a rest that splits into the other parts. -/
theorem SplitN_cons_cons (s : Str) (sep : Byte) (n : Nat) (a b : Str) (rest : List Str)
    (h : SplitN s sep (n + 2) = a :: b :: rest) :
    ∃ r, s = a ++ sep :: r ∧ SplitN r sep (n + 1) = b :: rest := by
  simp only [SplitN] at h
  split at h
  · simp at h
  · rename_i a2 x r heq
    simp only [List.cons.injEq] at h
    obtain ⟨h1, h2⟩ := h
    obtain ⟨hs, hx⟩ := span_split _ s a2 r x heq
    have hsep : x = sep := by simpa using hx
    refine ⟨r, ?_, h2⟩
    rw [hs, h1, hsep]

/-- A text that is listed when read token by token is listed when the verb is
read off its first bytes. -/
theorem listedByKeyword_of_listedByTokens (lib : Lib) (aql : Str)
    (h : listedByTokens lib aql = true) : listedByKeyword lib aql = true := by
  unfold listedByTokens at h
  split at h
  · rename_i verb json table payload hsplit
    obtain ⟨r1, haql, h1⟩ := SplitN_cons_cons aql space 2 verb json [table, payload] hsplit
    obtain ⟨r2, hr1, -⟩ := SplitN_cons_cons r1 space 1 json table [payload] h1
    simp only [Bool.and_eq_true, decide_eq_true_eq] at h
    obtain ⟨hjson, hverb⟩ := h
    have hlen : (SplitN aql space 4).length = 4 := by rw [hsplit]; rfl
    have ht : (SplitN aql space 4).getD 2 [] = table := by rw [hsplit]; rfl
    have hp : (SplitN aql space 4).getD 3 [] = payload := by rw [hsplit]; rfl
    dsimp only [listedByKeyword]
    rw [hlen, ht, hp]
    subst hjson
    subst hr1
    split_ifs at hverb with hT hU hH
    · subst hT
      have hpre : HasPrefix aql (lit "TANAM JSON") = true := by rw [haql]; rfl
      simp only [hpre, if_true, decide_True, Bool.true_and]
      exact hverb
    · subst hU
      have hpre : HasPrefix aql (lit "TANAM JSON") = false := by rw [haql]; rfl
      have hpre2 : HasPrefix aql (lit "UBAH JSON") = true := by rw [haql]; rfl
      simp only [hpre, hpre2, Bool.false_eq_true, if_false, if_true, decide_True, Bool.true_and]
      exact hverb
    · subst hH
      have hpre : HasPrefix aql (lit "TANAM JSON") = false := by rw [haql]; rfl
      have hpre2 : HasPrefix aql (lit "UBAH JSON") = false := by rw [haql]; rfl
      have hpre3 : HasPrefix aql (lit "HAPUS JSON") = true := by rw [haql]; rfl
      simp only [hpre, hpre2, hpre3, Bool.false_eq_true, if_false, if_true, decide_True,
        Bool.true_and]
      exact hverb
  · cases h

/-- Claim C10, refuted as stated. The second token of `TANAM JSONX users {..}`
is not `JSON`, so the text spells no verb of the command language, yet
`applyLocally` inserts the user; and `HAPUS JSON-not-a-verb users {..}` removes
the user. -/
theorem unknown_verb_token_is_applied :
    SplitN (lit "TANAM JSONX users \x7b\"id\":\"u1\"\x7d") space 4
      = [lit "TANAM", lit "JSONX", lit "users", lit "\x7b\"id\":\"u1\"\x7d"]
    ∧ listedByTokens sampleLib (lit "TANAM JSONX users \x7b\"id\":\"u1\"\x7d") = false
    ∧ (applyLocally sampleLib (freshDB []) (lit "TANAM JSONX users \x7b\"id\":\"u1\"\x7d")
        (constEntropy 171)).1.Users = [{ zeroUser with ID := lit "u1" }]
    ∧ listedByTokens sampleLib (lit "HAPUS JSON-not-a-verb users \x7b\"id\":\"u1\"\x7d") = false
    ∧ (applyLocally sampleLib { freshDB [] with Users := [{ zeroUser with ID := lit "u1" }] }
        (lit "HAPUS JSON-not-a-verb users \x7b\"id\":\"u1\"\x7d") (constEntropy 171)).1.Users
      = [] := by
  decide

/-- Claim C10, amended. Silent no-op, the verb being read off the first bytes of
the text: a command text that does not start with `TANAM JSON`, `UBAH JSON` or
`HAPUS JSON`, or has fewer than four tokens separated by spaces, or whose third
token is not a table listed for that keyword (an unknown table, a delete on a
table other than `users`, an update of `audit_log`), or whose payload fails to
decode, leaves the whole store as it was under `applyLocally`, and
`ExecuteAQL`, its file-system calls succeeding, returns a nil error and leaves
transactions, users, audit entries and settings as they were. -/
theorem unlisted_command_is_noop (lib : Lib) (db : SawitDB) (aql : Str) (ent : Entropy)
    (h : listedByKeyword lib aql = false) :
    (applyLocally lib db aql ent).1 = db
    ∧ (ExecuteAQL lib db aql .allOk ent).err = none
    ∧ (ExecuteAQL lib db aql .allOk ent).db.Transactions = db.Transactions
    ∧ (ExecuteAQL lib db aql .allOk ent).db.Users = db.Users
    ∧ (ExecuteAQL lib db aql .allOk ent).db.AuditLogs = db.AuditLogs
    ∧ (ExecuteAQL lib db aql .allOk ent).db.Settings = db.Settings := by
  have happ : ∀ d : SawitDB, (applyLocally lib d aql ent).1 = d := by
    intro d
    have hlen := SplitN_length_le space 4 aql
    dsimp only [applyLocally]
    dsimp only [listedByKeyword] at h
    cases hT : HasPrefix aql (lit "TANAM JSON") with
    | true =>
      have hU := hasPrefix_tanam_ubah aql hT
      simp only [hU, Bool.true_or, if_true]
      split_ifs with hl
      · rfl
      · have h4 : (SplitN aql space 4).length = 4 := by omega
        apply applyWrite_noop
        simp only [h4, decide_True, Bool.true_and, hT, if_true] at h
        simpa using h
    | false =>
      cases hU : HasPrefix aql (lit "UBAH JSON") with
      | true =>
        simp only [Bool.or_true, if_true]
        split_ifs with hl
        · rfl
        · have h4 : (SplitN aql space 4).length = 4 := by omega
          apply applyWrite_noop
          simp only [h4, decide_True, Bool.true_and, hT, hU, if_true, if_false,
            Bool.false_eq_true] at h
          simp only [Bool.or_eq_false_iff] at h ⊢
          simp only [Bool.not_true, Bool.false_and, true_and, and_true]
          exact ⟨⟨h.1.1, h.1.2⟩, h.2⟩
      | false =>
        simp only [Bool.or_self, Bool.false_eq_true, if_false]
        split_ifs with hH hl
        · rfl
        · have h4 : (SplitN aql space 4).length = 4 := by omega
          simp only [h4, decide_True, Bool.true_and, hT, hU, hH, if_true, if_false,
            Bool.false_eq_true] at h
          rw [applyDelete_noop lib d _ _ h]
        · rfl
  refine ⟨happ db, ExecuteAQL_allOk_err _ _ _ _, ?_, ?_, ?_, ?_⟩ <;>
    rw [(ExecuteAQL_allOk lib db aql ent).1, happ]

theorem unlisted_command_is_noop_witness :
    (applyLocally sampleLib
        { freshDB [] with AuditLogs := [{ zeroAuditLog with ID := lit "l1" }] }
        (lit "UBAH JSON audit_log \x7b\"id\":\"l1\"\x7d") (constEntropy 171)).1
      = { freshDB [] with AuditLogs := [{ zeroAuditLog with ID := lit "l1" }] }
    ∧ (applyLocally sampleLib (freshDB []) (lit "LAHAN categories") (constEntropy 171)).1
      = freshDB []
    ∧ (applyLocally sampleLib (freshDB []) (lit "TANAM JSON users not-json")
        (constEntropy 171)).1 = freshDB [] :=
  ⟨(unlisted_command_is_noop sampleLib
      { freshDB [] with AuditLogs := [{ zeroAuditLog with ID := lit "l1" }] }
      (lit "UBAH JSON audit_log \x7b\"id\":\"l1\"\x7d") (constEntropy 171) (by decide)).1,
   (unlisted_command_is_noop sampleLib (freshDB []) (lit "LAHAN categories")
      (constEntropy 171) (by decide)).1,
   (unlisted_command_is_noop sampleLib (freshDB []) (lit "TANAM JSON users not-json")
      (constEntropy 171) (by decide)).1⟩

/-! ## Log framing -/

theorem ExecuteAQL_calls_of_err_none (lib : Lib) (db : SawitDB) (query : Str)
    (calls : WriteCalls) (ent : Entropy)
    (h : (ExecuteAQL lib db query calls ent).err = none) : calls = .allOk := by
  cases hf : calls.failure with
  | none => exact failure_eq_none hf
  | some e =>
    obtain ⟨written, -, hw⟩ := ExecuteAQL_of_failure lib db query calls ent e hf
    rw [hw] at h
    cases h

theorem putInt32LE_eq_littleEndian32 (n : Nat) (h : n < 2 ^ 31) :
    putInt32LE (int32 n) = littleEndian32 n := by
  rw [int32_of_lt n h]
  have e : ((n : Int) % 2 ^ 32).toNat = n := by omega
  simp only [putInt32LE, littleEndian32, e, List.cons.injEq, and_true]
  refine ⟨?_, ?_, ?_, ?_⟩ <;> apply Fin.ext <;> simp [Fin.ofNat]

/-- Claim C11. Log framing is append-only and length-exact: a successful
`ExecuteAQL` of a command text of fewer than `2 ^ 31` bytes leaves the log
equal to the log before, followed by the 4-byte little-endian encoding of the
length of the text, followed by the bytes of the text; the log before is the
start of the log after, and the header read back is the number of payload
bytes. -/
theorem log_framing_append_only (lib : Lib) (db : SawitDB) (query : Str)
    (calls : WriteCalls) (ent : Entropy) (hlen : query.length < 2 ^ 31)
    (hok : (ExecuteAQL lib db query calls ent).err = none) :
    (ExecuteAQL lib db query calls ent).db.file
        = db.file ++ (littleEndian32 query.length ++ query)
    ∧ db.file <+: (ExecuteAQL lib db query calls ent).db.file
    ∧ (ExecuteAQL lib db query calls ent).db.file.length
        = db.file.length + 4 + query.length
    ∧ (littleEndian32 query.length).length = 4
    ∧ readInt32 (littleEndian32 query.length ++ query) = .value query.length query := by
  have hall := ExecuteAQL_calls_of_err_none lib db query calls ent hok
  subst hall
  have hfile : (ExecuteAQL lib db query .allOk ent).db.file
      = db.file ++ (littleEndian32 query.length ++ query) := by
    rw [(ExecuteAQL_allOk lib db query ent).1, applyLocally_file, frame,
      putInt32LE_eq_littleEndian32 _ hlen]
  refine ⟨hfile, ?_, ?_, rfl, ?_⟩
  · rw [hfile]; exact List.prefix_append _ _
  · rw [hfile]; simp [littleEndian32]; omega
  · rw [← putInt32LE_eq_littleEndian32 _ hlen]
    exact readInt32_putInt32LE _ hlen _

theorem log_framing_append_only_witness :
    (ExecuteAQL sampleLib (freshDB [7, 0, 0, 0]) (lit "LAHAN users") .allOk
        (constEntropy 171)).db.file
      = [7, 0, 0, 0] ++ ([11, 0, 0, 0] ++ lit "LAHAN users") :=
  (log_framing_append_only sampleLib (freshDB [7, 0, 0, 0]) (lit "LAHAN users") .allOk
    (constEntropy 171) (by decide) (by decide)).1

/-! ## Insert, then update -/

theorem applyAll_pair (lib : Lib) (q1 q2 : Str) (db : SawitDB) (ent : Entropy) :
    (applyAll lib [q1, q2] db ent).1
      = (applyLocally lib (applyLocally lib db q1 ent).1 q2 (applyLocally lib db q1 ent).2).1 :=
  rfl

/-- Claim C12. Insert then update: in a state where no transaction has id `x`,
for two payloads that decode to the entities `t` and `t2`, both of id `x`,
applying `TANAM JSON transactions` with the first and then
`UBAH JSON transactions` with the second yields the transactions of the
original state followed by exactly one new entity, `t2`; users, audit entries
and settings are untouched, and the same holds when the two texts are executed
through `ExecuteAQL` with its file-system calls succeeding. -/
theorem insert_then_update (lib : Lib) (db : SawitDB) (p p2 x : Str) (t t2 : Transaction)
    (ent ent2 : Entropy)
    (hfresh : ∀ s ∈ db.Transactions, s.ID ≠ x)
    (ht : lib.unmarshalTransaction p = some t) (ht2 : lib.unmarshalTransaction p2 = some t2)
    (hx : t.ID = x) (hx2 : t2.ID = x) :
    (applyLocally lib (applyLocally lib db (lit "TANAM JSON transactions " ++ p) ent).1
        (lit "UBAH JSON transactions " ++ p2) ent2).1
      = { db with Transactions := db.Transactions ++ [t2] }
    ∧ (runAll lib [lit "TANAM JSON transactions " ++ p, lit "UBAH JSON transactions " ++ p2]
        db ent).1.Transactions = db.Transactions ++ [t2] := by
  have h1 : ∀ e, applyLocally lib db (lit "TANAM JSON transactions " ++ p) e
      = ({ db with Transactions := db.Transactions ++ [t] }, e) := by
    intro e
    have h := applyLocally_tanam lib db (lit "transactions") p e (Or.inl rfl)
    rw [show lit "TANAM JSON transactions " ++ p
        = lit "TANAM JSON " ++ (lit "transactions" ++ space :: p) from rfl, h]
    simp [applyWrite, ht]
  have h2 : ∀ e, applyLocally lib { db with Transactions := db.Transactions ++ [t] }
        (lit "UBAH JSON transactions " ++ p2) e
      = ({ db with Transactions := db.Transactions ++ [t2] }, e) := by
    intro e
    have h := applyLocally_ubah lib { db with Transactions := db.Transactions ++ [t] }
      (lit "transactions") p2 e (Or.inl rfl)
    rw [show lit "UBAH JSON transactions " ++ p2
        = lit "UBAH JSON " ++ (lit "transactions" ++ space :: p2) from rfl, h]
    have hhit := replaceTransaction_hit t2 t [] db.Transactions
      (fun s hs => by rw [hx2]; exact hfresh s hs) (by rw [hx, hx2])
    simp [applyWrite, ht2, hhit]
  refine ⟨by rw [h1, h2], ?_⟩
  rw [runAll_eq, applyAll_pair, h1, h2]

theorem insert_then_update_witness :
    (runAll scenarioLib
        [lit "TANAM JSON transactions "
            ++ lit "\x7b\"id\":\"a1\",\"type\":\"income\",\"amount\":100\x7d",
          lit "UBAH JSON transactions "
            ++ lit "\x7b\"id\":\"a1\",\"type\":\"income\",\"amount\":150\x7d"]
        (freshDB []) (constEntropy 171)).1.Transactions
      = (freshDB []).Transactions
        ++ [{ zeroTransaction with ID := lit "a1", TxType := lit "income",
                                   Amount := ⟨0x4062C00000000000⟩ }] :=
  (insert_then_update scenarioLib (freshDB [])
    (lit "\x7b\"id\":\"a1\",\"type\":\"income\",\"amount\":100\x7d")
    (lit "\x7b\"id\":\"a1\",\"type\":\"income\",\"amount\":150\x7d") (lit "a1")
    { zeroTransaction with ID := lit "a1", TxType := lit "income",
                           Amount := ⟨0x4059000000000000⟩ }
    { zeroTransaction with ID := lit "a1", TxType := lit "income",
                           Amount := ⟨0x4062C00000000000⟩ }
    (constEntropy 171) (constEntropy 171) (by decide) (by decide) (by decide) rfl rfl).2

/-! ## Malformed logs -/

/-- A final record whose payload is cut short, at least one byte of it being
there, is read as a short read: the replay pads the text with zero bytes,
applies it, reaches the end of the file and returns no error. -/
theorem replay_truncated_payload (lib : Lib) (n : Nat) (part : Str) (db : SawitDB)
    (ent : Entropy) (hn : n ≤ 2 ^ 30) (hne : part ≠ []) (hshort : part.length < n) :
    replay lib (putInt32LE (int32 n) ++ part) db ent =
      ⟨(applyLocally lib db (part ++ List.replicate (n - part.length) 0) ent).1,
        (applyLocally lib db (part ++ List.replicate (n - part.length) 0) ent).2, .ok⟩ := by
  have hread : fileRead part n = .ok (part ++ List.replicate (n - part.length) 0, []) := by
    have hmin : min n maxRW = n := Nat.min_eq_left hn
    have hmin2 : min n part.length = part.length := Nat.min_eq_right (by omega)
    unfold fileRead
    rw [if_neg (by omega), if_neg hne, hmin, hmin2, List.take_of_length_le (by omega),
      List.drop_of_length_le (by omega)]
  unfold replay
  rw [rehydrateLoop_succ, readInt32_putInt32LE n (by omega)]
  simp only [Int.toNat_ofNat, hread]
  rw [if_neg (by omega)]
  have hfuel : (putInt32LE (int32 n) ++ part).length = part.length + 3 + 1 := by
    simp [putInt32LE]
  rw [hfuel, rehydrateLoop_succ]
  rfl

/-- Claim C13, evaluated on the code. The log holds a header that announces
five payload bytes and only three of them: the replay returns no error,
`NewSawitDB` returns a store, and the text handed to `applyLocally` was the
three bytes padded with two zero bytes.  A header with a negative length makes
the replay panic, no error value is returned.  A header cut after two bytes
and a header with no payload byte at all do return an error. -/
theorem truncated_payload_is_not_fatal :
    (Rehydrate sampleLib (freshDB ([5, 0, 0, 0] ++ lit "LAH")) (constEntropy 171)).outcome = .ok
    ∧ NewSawitDB sampleLib none (.ok ([5, 0, 0, 0] ++ lit "LAH")) (constEntropy 171)
      = (some (freshDB ([5, 0, 0, 0] ++ lit "LAH")), .ok)
    ∧ fileRead (lit "LAH") 5 = .ok (lit "LAH" ++ [0, 0], [])
    ∧ (Rehydrate sampleLib (freshDB [255, 255, 255, 255]) (constEntropy 171)).outcome = .panic
    ∧ NewSawitDB sampleLib none (.ok [255, 255, 255, 255]) (constEntropy 171) = (none, .panic)
    ∧ NewSawitDB sampleLib none (.ok [5, 0]) (constEntropy 171)
      = (none, .error .ErrUnexpectedEOF)
    ∧ NewSawitDB sampleLib none (.ok [5, 0, 0, 0]) (constEntropy 171) = (none, .error .EOF) :=
  ⟨by decide, by decide, rfl, by decide, by decide, by decide, by decide⟩

/-! ## Command parsing -/

theorem span_table (t rest : Str) (ht : space ∉ t) :
    (t ++ space :: rest).span (fun b => b != space) = (t, space :: rest) := by
  have hall : ∀ a ∈ t, (fun b => b != space) a = true := by
    intro a ha
    have hne : a ≠ space := fun h => ht (h ▸ ha)
    simpa using hne
  rw [List.span_eq_take_drop, List.takeWhile_append_of_pos hall,
    List.dropWhile_append_of_pos hall]
  simp

/-- The split of a command text written with single spaces: keyword, `JSON`,
the table token, and the rest of the text as it is. -/
theorem SplitN_command (kw t p : Str) (hkw : space ∉ kw) (ht : space ∉ t) :
    SplitN (kw ++ space :: (lit "JSON" ++ space :: (t ++ space :: p))) space 4
      = [kw, lit "JSON", t, p] := by
  have hj : space ∉ lit "JSON" := by decide
  simp only [SplitN, span_table _ _ hkw, span_table _ _ hj, span_table _ _ ht]

/-- Claim C14, refuted as stated. The insert of a user written with single
spaces is applied; the same command with tabs between its tokens, and the same
command with two spaces before the table name, leave the users empty. -/
theorem tab_or_double_space_is_not_a_separator :
    (applyLocally sampleLib (freshDB []) (lit "TANAM JSON users \x7b\"id\":\"u1\"\x7d")
        (constEntropy 171)).1.Users = [{ zeroUser with ID := lit "u1" }]
    ∧ (applyLocally sampleLib (freshDB []) (lit "TANAM JSON\tusers\t\x7b\"id\":\"u1\"\x7d")
        (constEntropy 171)).1.Users = []
    ∧ (applyLocally sampleLib (freshDB []) (lit "TANAM\tJSON\tusers\t\x7b\"id\":\"u1\"\x7d")
        (constEntropy 171)).1.Users = []
    ∧ (applyLocally sampleLib (freshDB []) (lit "TANAM JSON  users \x7b\"id\":\"u1\"\x7d")
        (constEntropy 171)).1.Users = []
    ∧ SplitN (lit "TANAM JSON\tusers\t\x7b\"id\":\"u1\"\x7d") space 4
      = [lit "TANAM", lit "JSON\tusers\t\x7b\"id\":\"u1\"\x7d"]
    ∧ SplitN (lit "TANAM JSON  users \x7b\"id\":\"u1\"\x7d") space 4
      = [lit "TANAM", lit "JSON", [], lit "users \x7b\"id\":\"u1\"\x7d"] := by
  decide

/-- Claim C14, amended. Command parsing splits on the space byte, and on no
other white space, into at most four tokens, the fourth being the remainder
as it is: for an insert, update or delete command written with single spaces,
with a table token that holds no space, `applyLocally` takes the table name to
be the third token and the payload to be the rest of the text after it, spaces
included.  A second space before the table name makes the table token empty and
the command a no-op. -/
theorem command_parsing_on_single_spaces (lib : Lib) (db : SawitDB) (t p : Str)
    (ent : Entropy) (ht : space ∉ t) :
    SplitN (lit "TANAM JSON " ++ (t ++ space :: p)) space 4 = [lit "TANAM", lit "JSON", t, p]
    ∧ applyLocally lib db (lit "TANAM JSON " ++ (t ++ space :: p)) ent
      = applyWrite lib db false t p ent
    ∧ applyLocally lib db (lit "UBAH JSON " ++ (t ++ space :: p)) ent
      = applyWrite lib db true t p ent
    ∧ applyLocally lib db (lit "HAPUS JSON " ++ (t ++ space :: p)) ent
      = (applyDelete lib db t p, ent)
    ∧ (SplitN (lit "TANAM JSON " ++ (t ++ space :: p)) space 4).length ≤ 4
    ∧ applyLocally lib db (lit "TANAM JSON " ++ (space :: p)) ent = (db, ent)
    ∧ applyLocally lib db (lit "UBAH JSON " ++ (space :: p)) ent = (db, ent)
    ∧ applyLocally lib db (lit "HAPUS JSON " ++ (space :: p)) ent = (db, ent) := by
  have hT := SplitN_command (lit "TANAM") t p (by decide) ht
  have hU := SplitN_command (lit "UBAH") t p (by decide) ht
  have hH := SplitN_command (lit "HAPUS") t p (by decide) ht
  have eT : lit "TANAM JSON " ++ (t ++ space :: p)
      = lit "TANAM" ++ space :: (lit "JSON" ++ space :: (t ++ space :: p)) := rfl
  have eU : lit "UBAH JSON " ++ (t ++ space :: p)
      = lit "UBAH" ++ space :: (lit "JSON" ++ space :: (t ++ space :: p)) := rfl
  have eH : lit "HAPUS JSON " ++ (t ++ space :: p)
      = lit "HAPUS" ++ space :: (lit "JSON" ++ space :: (t ++ space :: p)) := rfl
  have pT : HasPrefix (lit "TANAM JSON " ++ (t ++ space :: p)) (lit "TANAM JSON") = true := rfl
  have pTU : HasPrefix (lit "TANAM JSON " ++ (t ++ space :: p)) (lit "UBAH JSON") = false := rfl
  have pU : HasPrefix (lit "UBAH JSON " ++ (t ++ space :: p)) (lit "UBAH JSON") = true := rfl
  have pH : HasPrefix (lit "HAPUS JSON " ++ (t ++ space :: p)) (lit "HAPUS JSON") = true := rfl
  have pHT : HasPrefix (lit "HAPUS JSON " ++ (t ++ space :: p)) (lit "TANAM JSON") = false := rfl
  have pHU : HasPrefix (lit "HAPUS JSON " ++ (t ++ space :: p)) (lit "UBAH JSON") = false := rfl
  refine ⟨by rw [eT, hT], ?_, ?_, ?_, SplitN_length_le _ _ _, ?_, ?_, ?_⟩
  · simp only [applyLocally, pT, pTU, Bool.true_or, if_true]
    rw [eT, hT]
    rfl
  · simp only [applyLocally, pU, Bool.or_true, if_true]
    rw [eU, hU]
    rfl
  · simp only [applyLocally, pH, pHT, pHU, Bool.or_self, Bool.false_eq_true, if_false, if_true]
    rw [eH, hH]
    rfl
  · rfl
  · rfl
  · show (applyDelete lib db [] p, ent) = (db, ent)
    unfold applyDelete
    cases lib.unmarshalID p <;> rfl

theorem command_parsing_on_single_spaces_witness :
    applyLocally sampleLib (freshDB [])
        (lit "TANAM JSON " ++ (lit "users" ++ space :: lit "\x7b\"id\": \"u1\"\x7d"))
        (constEntropy 171)
      = applyWrite sampleLib (freshDB []) false (lit "users") (lit "\x7b\"id\": \"u1\"\x7d")
        (constEntropy 171) :=
  (command_parsing_on_single_spaces sampleLib (freshDB []) (lit "users")
    (lit "\x7b\"id\": \"u1\"\x7d") (constEntropy 171) (by decide)).2.1

/-! ## The audit trail -/

theorem applyWrite_auditLogs (lib : Lib) (db : SawitDB) (ubah : Bool) (t p : Str)
    (ent : Entropy) :
    (applyWrite lib db ubah t p ent).1.AuditLogs = db.AuditLogs
    ∨ ∃ a, (applyWrite lib db ubah t p ent).1.AuditLogs = db.AuditLogs ++ [a] := by
  unfold applyWrite
  by_cases h1 : t = lit "transactions"
  · rw [if_pos h1]
    cases lib.unmarshalTransaction p <;> cases ubah <;> exact Or.inl rfl
  rw [if_neg h1]
  by_cases h2 : t = lit "users"
  · rw [if_pos h2]
    cases lib.unmarshalUser p <;> cases ubah <;> exact Or.inl rfl
  rw [if_neg h2]
  by_cases h3 : t = lit "audit_log"
  · rw [if_pos h3]
    cases lib.unmarshalAuditLog p with
    | none => exact Or.inl rfl
    | some a =>
      cases ubah with
      | false => exact Or.inr ⟨(assignID a ent).1, rfl⟩
      | true => exact Or.inl rfl
  rw [if_neg h3]
  by_cases h4 : t = lit "settings"
  · rw [if_pos h4]
    cases lib.unmarshalSettings p <;> exact Or.inl rfl
  rw [if_neg h4]
  exact Or.inl rfl

theorem applyDelete_auditLogs (lib : Lib) (db : SawitDB) (t p : Str) :
    (applyDelete lib db t p).AuditLogs = db.AuditLogs := by
  unfold applyDelete
  repeat' split
  all_goals rfl

theorem applyLocally_auditLogs (lib : Lib) (db : SawitDB) (aql : Str) (ent : Entropy) :
    (applyLocally lib db aql ent).1.AuditLogs = db.AuditLogs
    ∨ ∃ a, (applyLocally lib db aql ent).1.AuditLogs = db.AuditLogs ++ [a] := by
  dsimp only [applyLocally]
  split_ifs
  · exact Or.inl rfl
  · exact applyWrite_auditLogs _ _ _ _ _ _
  · exact Or.inl rfl
  · exact Or.inl (applyDelete_auditLogs _ _ _ _)
  · exact Or.inl rfl

/-- Claim C15. The audit trail is append-only in memory: whatever the state and
the command text, the audit entries before `applyLocally` are the first
entries, unchanged and in order, of the audit entries after it, and the
collection grows by one entry at most, which is then appended at the end. -/
theorem audit_trail_append_only (lib : Lib) (db : SawitDB) (aql : Str) (ent : Entropy) :
    db.AuditLogs <+: (applyLocally lib db aql ent).1.AuditLogs
    ∧ (applyLocally lib db aql ent).1.AuditLogs.length ≤ db.AuditLogs.length + 1
    ∧ ((applyLocally lib db aql ent).1.AuditLogs = db.AuditLogs
      ∨ ∃ a, (applyLocally lib db aql ent).1.AuditLogs = db.AuditLogs ++ [a]) := by
  rcases applyLocally_auditLogs lib db aql ent with h | ⟨a, h⟩
  · exact ⟨by rw [h], by rw [h]; omega, Or.inl h⟩
  · exact ⟨by rw [h]; exact List.prefix_append _ _, by rw [h]; simp, Or.inr ⟨a, h⟩⟩

end Sawit
